import Mathlib

/-!
Verification development for the media-library-manager File Organization Engine
(`media_manager/organizer/file_organizer.py` and `media_manager/utils/file_utils.py`).
Strings are modelled as `List Char`; the specific regular expressions used by the
source are implemented directly as character-level scanners with Python `re`
semantics (lazy `(.+?)` prefixes scan positions left to right, `.` matches any
character except newline, `\s` is Python whitespace, `\d` is a decimal digit).
Paths are modelled as lists of components, as produced by `pathlib` on relative
paths.
-/

set_option maxHeartbeats 1000000

abbrev Str := List Char

/-- Python `\s` (whitespace) character class. -/
def isWs (c : Char) : Bool :=
  c = ' ' || c = '\t' || c = '\n' || c = '\r' || c = '\x0b' || c = '\x0c'

/-- The separator class `[\.\s]` used by the first TV pattern. -/
def isSep (c : Char) : Bool := c = '.' || isWs c

/-- Python `\w` (word) character class, restricted to ASCII alphanumerics. -/
def wordChar (c : Char) : Bool := c.isAlphanum || c = '_'

/-- Remove a trailing run of characters satisfying `p` (like Python `rstrip`). -/
def rstrip (p : Char → Bool) : Str → Str
  | [] => []
  | c :: rest =>
    let r := rstrip p rest
    if r = [] && p c then [] else c :: r

/-- Python `str.strip()`: remove leading and trailing whitespace. -/
def stripWs (s : Str) : Str := rstrip isWs (s.dropWhile isWs)

/-- Python `str.strip(' .')` as used by `clean_filename`. -/
def isDotSpace (c : Char) : Bool := c = ' ' || c = '.'

def stripDotSpace (s : Str) : Str := rstrip isDotSpace (s.dropWhile isDotSpace)

theorem length_dropWhile_le' (p : Char → Bool) :
    ∀ (l : Str), (l.dropWhile p).length ≤ l.length := by
  intro l
  induction l with
  | nil => simp
  | cons c rest ih =>
    rw [List.dropWhile_cons]
    by_cases h : p c = true
    · rw [if_pos h]
      exact Nat.le_succ_of_le ih
    · rw [if_neg h]

/-- Helper for `collapseToChar`: the flag records whether the previous
character was part of a class run (already replaced). -/
def collapseAux (p : Char → Bool) (rep : Char) : Bool → Str → Str
  | _, [] => []
  | inRun, c :: rest =>
    if p c then
      if inRun then collapseAux p rep true rest
      else rep :: collapseAux p rep true rest
    else c :: collapseAux p rep false rest

/-- `re.sub` of `cls+` by the single character `rep` (used for `[_\s\.]+` → `' '`
and `\s+` → `'.'`). -/
def collapseToChar (p : Char → Bool) (rep : Char) (s : Str) : Str :=
  collapseAux p rep false s

/-- `str.replace(' ', '.')`. -/
def replaceSpaceDot (s : Str) : Str := s.map (fun c => if c = ' ' then '.' else c)

/-- Lowercasing a string (Python `str.lower()` on the characters we model). -/
def lowerS (s : Str) : Str := s.map Char.toLower

/-- `l[-n:]` in Python. -/
def lastN (n : Nat) (l : List Str) : List Str := l.drop (l.length - n)

/-- Maximal suffix whose elements all satisfy `p` (kept in original order). -/
def takeRightWhile (p : Str → Bool) (l : List Str) : List Str :=
  (l.reverse.takeWhile p).reverse

-- ### basic lemmas about the primitives

theorem rstrip_getLast?_not (p : Char → Bool) :
    ∀ (s : Str) (a : Char), (rstrip p s).getLast? = some a → p a = false := by
  intro s
  induction s with
  | nil => intro a h; simp [rstrip] at h
  | cons c rest ih =>
    intro a h
    simp only [rstrip] at h
    by_cases hr : rstrip p rest = [] ∧ p c = true
    · rw [if_pos (by simp [hr.1, hr.2])] at h
      simp at h
    · rw [if_neg (by intro hc; simp at hc; exact hr ⟨hc.1, hc.2⟩)] at h
      rcases hq : rstrip p rest with _ | ⟨d, ds⟩
      · rw [hq] at h
        simp at h
        by_cases hpc : p c = true
        · exact absurd ⟨hq, hpc⟩ hr
        · rw [← h]; simpa using hpc
      · rw [hq] at h
        rw [List.getLast?_cons_cons] at h
        exact ih a (by rw [hq]; exact h)

theorem rstrip_head?_cases (p : Char → Bool) (c : Char) (rest : Str) :
    rstrip p (c :: rest) = [] ∨ ∃ r, rstrip p (c :: rest) = c :: r := by
  simp only [rstrip]
  by_cases h : rstrip p rest = [] ∧ p c = true
  · left; rw [if_pos (by simp [h.1, h.2])]
  · right
    refine ⟨rstrip p rest, ?_⟩
    rw [if_neg (by intro hc; simp at hc; exact h ⟨hc.1, hc.2⟩)]

theorem rstrip_eq_self_of_getLast (p : Char → Bool) :
    ∀ (s : Str), (∀ a, s.getLast? = some a → p a = false) → rstrip p s = s := by
  intro s
  induction s with
  | nil => intro _; simp [rstrip]
  | cons c rest ih =>
    intro h
    simp only [rstrip]
    rcases hr : rest with _ | ⟨d, ds⟩
    · have hc : p c = false := h c (by rw [hr]; simp)
      simp [rstrip, hc]
    · rw [← hr]
      have hrest : rstrip p rest = rest := by
        apply ih
        intro a ha
        apply h
        rw [hr] at ha ⊢
        rw [List.getLast?_cons_cons]
        exact ha
      rw [hrest]
      have : rest ≠ [] := by rw [hr]; simp
      rw [if_neg (by simp [this])]

theorem dropWhile_head?_not (p : Char → Bool) :
    ∀ (s : Str) (a : Char), (s.dropWhile p).head? = some a → p a = false := by
  intro s
  induction s with
  | nil => intro a h; simp [List.dropWhile] at h
  | cons c rest ih =>
    intro a h
    rw [List.dropWhile_cons] at h
    by_cases hc : p c = true
    · rw [if_pos hc] at h; exact ih a h
    · rw [if_neg hc] at h
      simp at h
      rw [← h]; simpa using hc

theorem mem_rstrip (p : Char → Bool) :
    ∀ (s : Str) (a : Char), a ∈ rstrip p s → a ∈ s := by
  intro s
  induction s with
  | nil => intro a h; simp [rstrip] at h
  | cons c rest ih =>
    intro a h
    simp only [rstrip] at h
    by_cases hr : (rstrip p rest = [] && p c) = true
    · rw [if_pos hr] at h; simp at h
    · rw [if_neg hr] at h
      rcases List.mem_cons.mp h with h1 | h2
      · simp [h1]
      · exact List.mem_cons_of_mem _ (ih a h2)

theorem dropWhile_eq_self_of_head (p : Char → Bool) (s : Str)
    (h : ∀ a, s.head? = some a → p a = false) : s.dropWhile p = s := by
  cases s with
  | nil => simp
  | cons c rest =>
    rw [List.dropWhile_cons, if_neg]
    simp [h c rfl]

-- ### Regex engines for the concrete patterns used by `extract_pattern_info`

/-- Parser for `S(\d+)E(\d+)` (case-insensitive), the tail of both TV patterns.
Greedy `\d+` runs are maximal; `E` must directly follow the season run. -/
def seParse : Str → Option (Str × Str)
  | [] => none
  | c :: rest =>
    if c = 'S' || c = 's' then
      let ds := rest.takeWhile Char.isDigit
      let r1 := rest.dropWhile Char.isDigit
      if ds = [] then none
      else
        match r1 with
        | e :: r2 =>
          if e = 'E' || e = 'e' then
            let es := r2.takeWhile Char.isDigit
            if es = [] then none else some (ds, es)
          else none
        | [] => none
    else none

/-- `re.match(r'^(.+?)[\.\s]S(\d+)E(\d+)', f, re.IGNORECASE)`: scan split
positions left to right (lazy `(.+?)`, at least one character, `.` does not
match a newline; `[\.\s]` is the separator class). Returns
(group 1, group 2, group 3). -/
def tvScan1 (acc : Str) : Str → Option (Str × Str × Str)
  | [] => none
  | c :: rest =>
    if acc ≠ [] && isSep c then
      match seParse rest with
      | some (ds, es) => some (acc.reverse, ds, es)
      | none => if c = '\n' then none else tvScan1 (c :: acc) rest
    else if c = '\n' then none else tvScan1 (c :: acc) rest

/-- Tail of `^(.+?)\s*-\s*S(\d+)E(\d+)` from a given split position:
`\s*` then `-` then `\s*` then the `S..E..` tail. -/
def tvTail2 (w : Str) : Option (Str × Str) :=
  match w.dropWhile isWs with
  | '-' :: r => seParse (r.dropWhile isWs)
  | _ => none

/-- `re.match(r'^(.+?)\s*-\s*S(\d+)E(\d+)', f, re.IGNORECASE)`. -/
def tvScan2 (acc : Str) : Str → Option (Str × Str × Str)
  | [] => none
  | c :: rest =>
    if acc ≠ [] then
      match tvTail2 (c :: rest) with
      | some (ds, es) => some (acc.reverse, ds, es)
      | none => if c = '\n' then none else tvScan2 (c :: acc) rest
    else if c = '\n' then none else tvScan2 (c :: acc) rest

/-- Parser for `(\d{4})\)` after an opening parenthesis. -/
def yearParen : Str → Option Str
  | a :: b :: c :: d :: ')' :: _ =>
    if a.isDigit && b.isDigit && c.isDigit && d.isDigit then some [a, b, c, d]
    else none
  | _ => none

/-- Tail of `^(.+?)\s*\((\d{4})\)` from a split position. -/
def movie1Tail (w : Str) : Option Str :=
  match w.dropWhile isWs with
  | '(' :: r => yearParen r
  | _ => none

/-- `re.match(r'^(.+?)\s*\((\d{4})\)', f)`. -/
def movie1Scan (acc : Str) : Str → Option (Str × Str)
  | [] => none
  | c :: rest =>
    if acc ≠ [] then
      match movie1Tail (c :: rest) with
      | some y => some (acc.reverse, y)
      | none => if c = '\n' then none else movie1Scan (c :: acc) rest
    else if c = '\n' then none else movie1Scan (c :: acc) rest

/-- Parser for `(\d{4})` (exactly four digits, anything may follow). -/
def year4 : Str → Option Str
  | a :: b :: c :: d :: _ =>
    if a.isDigit && b.isDigit && c.isDigit && d.isDigit then some [a, b, c, d]
    else none
  | _ => none

/-- `re.match(r'^(.+?)\.(\d{4})', f)`. -/
def movie2Scan (acc : Str) : Str → Option (Str × Str)
  | [] => none
  | c :: rest =>
    if acc ≠ [] && c = '.' then
      match year4 rest with
      | some y => some (acc.reverse, y)
      | none => if c = '\n' then none else movie2Scan (c :: acc) rest
    else if c = '\n' then none else movie2Scan (c :: acc) rest

/-- The alternation `(19[89]\d|20[0-2]\d|2030)` with the `(?!\d)` lookahead. -/
def bareYearAt : Str → Option Str
  | a :: b :: c :: d :: rest =>
    let la := match rest.head? with
              | some e => !e.isDigit
              | none => true
    if a = '1' && b = '9' && (c = '8' || c = '9') && d.isDigit && la then
      some [a, b, c, d]
    else if a = '2' && b = '0' && (c = '0' || c = '1' || c = '2') && d.isDigit && la then
      some [a, b, c, d]
    else if a = '2' && b = '0' && c = '3' && d = '0' && la then
      some [a, b, c, d]
    else none
  | _ => none

/-- `re.search(r'(?<!\d)(19[89]\d|20[0-2]\d|2030)(?!\d)', f)`: earliest match
position; `acc` holds the reversed prefix (its head is the lookbehind char).
Returns (prefix before the match, matched year). -/
def bareYearScan (acc : Str) : Str → Option (Str × Str)
  | [] => none
  | s@(c :: rest) =>
    let lb := match acc.head? with
              | some p => !p.isDigit
              | none => true
    if lb then
      match bareYearAt s with
      | some y => some (acc.reverse, y)
      | none => bareYearScan (c :: acc) rest
    else bareYearScan (c :: acc) rest

/-- `re.search(r's\d+e\d+', f)` at a given position (f is already lowercased). -/
def seTokenAt : Str → Bool
  | 's' :: rest =>
    let ds := rest.takeWhile Char.isDigit
    let r1 := rest.dropWhile Char.isDigit
    ds ≠ [] &&
      (match r1 with
       | 'e' :: r2 => (match r2.head? with
                       | some c => c.isDigit
                       | none => false)
       | _ => false)
  | _ => false

/-- `re.search(r's\d+e\d+', f)` anywhere in the string. -/
def seTokenSearch : Str → Bool
  | [] => false
  | s@(_ :: rest) => seTokenAt s || seTokenSearch rest

/-- Case-insensitive literal prefix test (pattern given in lowercase). -/
def ciStarts : Str → Str → Bool
  | [], _ => true
  | _ :: _, [] => false
  | p :: ps, c :: cs => (c.toLower = p) && ciStarts ps cs

/-- Case-insensitive literal substring test (`re.search` of a literal with
`re.IGNORECASE`). -/
def ciInfix (w : Str) : Str → Bool
  | [] => w = []
  | s@(_ :: rest) => ciStarts w s || ciInfix w rest

/-- `\b<word>\b` search with `re.IGNORECASE` (word given in lowercase; all its
characters are word characters). `prev` is the character before the current
position. -/
def ciWordSearch (w : Str) : Option Char → Str → Bool
  | _, [] => false
  | prev, s@(c :: rest) =>
    let lb := match prev with
              | some p => !wordChar p
              | none => true
    let rb := match (s.drop w.length).head? with
              | some q => !wordChar q
              | none => true
    (lb && ciStarts w s && rb) || ciWordSearch w (some c) rest

-- ### `extract_pattern_info` and its helpers

structure PatternInfo where
  title : Str
  year : Str
  season : Str
  episode : Str
  quality : Str
  codec : Str
deriving Repr, DecidableEq

/-- Quality detection: the ordered priority list of
`[(r'2160p|4K|UHD','4K'), (r'1080p|FHD|FullHD','1080p'), (r'720p|HD','720p'),
(r'480p|SD','480p')]`, first match (with `re.IGNORECASE`) wins. -/
def detectQuality (f : Str) : Str :=
  if ciInfix "2160p".data f || ciInfix "4k".data f || ciInfix "uhd".data f then
    "4K".data
  else if ciInfix "1080p".data f || ciInfix "fhd".data f || ciInfix "fullhd".data f then
    "1080p".data
  else if ciInfix "720p".data f || ciInfix "hd".data f then
    "720p".data
  else if ciInfix "480p".data f || ciInfix "sd".data f then
    "480p".data
  else []

/-- Codec detection: ordered priority list
`[(r'\bHEVC\b|\bx265\b|H\.265','HEVC'), (r'\bAVC\b|\bx264\b|H\.264','AVC'),
(r'\bXVID\b|DivX','XVID')]` with `re.IGNORECASE`. -/
def detectCodec (f : Str) : Str :=
  if ciWordSearch "hevc".data none f || ciWordSearch "x265".data none f
      || ciInfix "h.265".data f then
    "HEVC".data
  else if ciWordSearch "avc".data none f || ciWordSearch "x264".data none f
      || ciInfix "h.264".data f then
    "AVC".data
  else if ciWordSearch "xvid".data none f || ciInfix "divx".data f then
    "XVID".data
  else []

/-- Title cleanup after a TV-pattern match: `.strip()` followed by
`re.sub(r'\s*-\s*$', '', title)`. -/
def tvTitleClean (t : Str) : Str :=
  let t1 := stripWs t
  if t1.getLast? = some '-' then rstrip isWs t1.dropLast else t1

/-- `FileOrganizer.extract_pattern_info`: TV patterns first (first match wins),
then `Title (Year)`, then `Title.Year`, then a bare year anywhere; quality and
codec are detected independently.  All fields default to the empty string. -/
def extract_pattern_info (f : Str) : PatternInfo :=
  let quality := detectQuality f
  let codec := detectCodec f
  match tvScan1 [] f with
  | some (t, ds, es) => ⟨tvTitleClean t, [], ds, es, quality, codec⟩
  | none =>
    match tvScan2 [] f with
    | some (t, ds, es) => ⟨tvTitleClean t, [], ds, es, quality, codec⟩
    | none =>
      match movie1Scan [] f with
      | some (t, y) => ⟨stripWs t, y, [], [], quality, codec⟩
      | none =>
        match movie2Scan [] f with
        | some (t, y) => ⟨stripWs t, y, [], [], quality, codec⟩
        | none =>
          match bareYearScan [] f with
          | some (pre, y) => ⟨stripWs pre, y, [], [], quality, codec⟩
          | none => ⟨[], [], [], [], quality, codec⟩

-- ### `file_utils.clean_filename` and path-name helpers

/-- The invalid filename characters `<>:"/\|?*` of `clean_filename`. -/
def invalidChars : Str := "<>:\"/\\|?*".data

def replaceInvalid (c : Char) : Char := if c ∈ invalidChars then '_' else c

/-- `file_utils.clean_filename`: replace each invalid character by `_`, then
strip leading/trailing spaces and dots. -/
def clean_filename (s : Str) : Str := stripDotSpace (s.map replaceInvalid)

/-- `pathlib.PurePath.suffix` of a file name: the part from the last dot,
provided that dot is neither the first nor the last character. -/
def pathSuffix (name : Str) : Str :=
  let revExt := name.reverse.takeWhile (fun c => c ≠ '.')
  let rest := name.reverse.dropWhile (fun c => c ≠ '.')
  match rest with
  | '.' :: pre => if revExt ≠ [] && pre ≠ [] then '.' :: revExt.reverse else []
  | _ => []

/-- `pathlib.PurePath.stem` of a file name. -/
def pathStem (name : Str) : Str := name.take (name.length - (pathSuffix name).length)

/-- `file_utils.get_file_extension`: the suffix, lowercased. -/
def get_file_extension (name : Str) : Str := lowerS (pathSuffix name)

-- ### `FileOrganizer.sanitize_filename`

/-- `re.sub(r'^\[.*?\]', '', s)`: if the string starts with `[`, remove up to
the first `]` (lazy `.*?` cannot cross a newline). -/
def removeLeadingBracketGroup (s : Str) : Str :=
  match s with
  | '[' :: rest =>
    match rest.dropWhile (fun c => c ≠ ']' && c ≠ '\n') with
    | ']' :: after => after
    | _ => '[' :: rest
  | _ => s

/-- Fuel-indexed helper for `removeBraceGroups`; the fuel is an upper bound on
the string length, so the base case is never reached from `removeBraceGroups`. -/
def removeBraceAux : Nat → Str → Str
  | 0, s => s
  | _ + 1, [] => []
  | n + 1, '{' :: rest =>
    match rest.dropWhile (fun c => c ≠ '}' && c ≠ '\n') with
    | '}' :: after => removeBraceAux n after
    | _ => '{' :: removeBraceAux n rest
  | n + 1, c :: rest => c :: removeBraceAux n rest

/-- `re.sub(r'\{.*?\}', '', s)` (global): each `{` with a following `}` on the
same line is removed together with the enclosed text; scanning resumes after
the removed group. -/
def removeBraceGroups (s : Str) : Str := removeBraceAux s.length s

/-- The character class `[_\s\.]` collapsed to a single space by
`sanitize_filename`. -/
def isSepUnd (c : Char) : Bool := c = '_' || isWs c || c = '.'

/-- `FileOrganizer.sanitize_filename`: strip, remove a leading `[...]` group and
all `{...}` groups, `clean_filename`, collapse `[_\s\.]+` to single spaces,
remove a trailing `[\.\s]+` run, and strip again. -/
def sanitize_filename (s : Str) : Str :=
  let s1 := stripWs s
  let s2 := removeBraceGroups (removeLeadingBracketGroup s1)
  let s3 := clean_filename s2
  let s4 := collapseToChar isSepUnd ' ' s3
  let s5 := rstrip isSep s4
  stripWs s5

-- ### `FileOrganizer.generate_new_filename`

/-- `re.sub(r'\s+', '.', s)`. -/
def subWsDot (s : Str) : Str := collapseToChar isWs '.' s

/-- The TV-show directory name built by `create_directory_structure`
(also the canonical title component of `generate_new_filename`):
sanitize, then `re.sub(r'\\s+', '.', ...)`. -/
def tv_show_dir_name (title : Str) : Str := subWsDot (sanitize_filename title)

/-- A preserved source-directory segment as sanitized by
`_preserve_unorganized_structure` and the category-specific branches of
`create_directory_structure`: sanitize, then `str.replace(' ', '.')`. -/
def preserved_segment_name (part : Str) : Str := replaceSpaceDot (sanitize_filename part)

/-- The part of `generate_new_filename` before the extension is appended.
With an empty extracted title the sanitized original stem is used; otherwise
the dot-joined components `title[.year][.S<season>E<episode>]`, cleaned. -/
def generate_new_filename_base (stem : Str) (info : PatternInfo) : Str :=
  if info.title = [] then
    clean_filename (subWsDot (sanitize_filename stem))
  else
    let t := tv_show_dir_name info.title
    let comps := [t]
      ++ (if info.year ≠ [] then [info.year] else [])
      ++ (if info.season ≠ [] && info.episode ≠ [] then
            ['S'] ++ info.season ++ ['E'] ++ info.episode |> fun se => [se]
          else [])
    clean_filename (List.intercalate ['.'] comps)

/-- `FileOrganizer.generate_new_filename` (the `media_type` parameter of the
source is unused by its body): base name plus the lowercased extension. -/
def generate_new_filename (stem : Str) (ext : Str) (info : PatternInfo) : Str :=
  generate_new_filename_base stem info ++ ext

-- ### `FileOrganizer._detect_media_type` and configuration

inductive MediaType
  | movies
  | tv_shows
  | music
  | photos
deriving Repr, DecidableEq

/-- The string a media type contributes to paths and config lookups. -/
def mtStr : MediaType → Str
  | .movies => "movies".data
  | .tv_shows => "tv_shows".data
  | .music => "music".data
  | .photos => "photos".data

/-- The configuration keys consumed by the organizer (`config.get` values).
Directory-valued entries are kept as raw strings, as in the YAML file. -/
structure Config where
  video_extensions : List Str
  audio_extensions : List Str
  photo_extensions : List Str
  output_directory : Str
  output_directories : List (Str × Str)
  organize_by : Str
deriving Repr, DecidableEq

/-- `output_dirs.get(media_type, '')`. -/
def lookupOutputDir (cfg : Config) (k : Str) : Str :=
  match cfg.output_directories.find? (fun e => e.1 = k) with
  | some e => e.2
  | none => []

/-- A regex literal whose `.` is the any-character wildcard, as in the
non-movie patterns `behind.the.scenes`, `deleted.scene`, `alternate.ending`. -/
def reLitDotAny (s : String) : List (Option Char) :=
  s.data.map (fun c => if c = '.' then none else some c)

/-- A plain literal regex. -/
def reLit (s : String) : List (Option Char) := s.data.map some

def patStarts : List (Option Char) → Str → Bool
  | [], _ => true
  | _ :: _, [] => false
  | some c :: ps, x :: xs => x = c && patStarts ps xs
  | none :: ps, x :: xs => x ≠ '\n' && patStarts ps xs

/-- `re.search` of a pattern made of literals and `.` wildcards. -/
def patSearch (p : List (Option Char)) : Str → Bool
  | [] => patStarts p []
  | s@(_ :: rest) => patStarts p s || patSearch p rest

/-- The non-movie indicator patterns of `_detect_media_type` (searched, without
`re.IGNORECASE`, against the already-lowercased filename). -/
def nonMoviePatterns : List (List (Option Char)) :=
  [reLit "sample", reLit "trailer", reLit "preview", reLit "intro", reLit "outro",
   reLitDotAny "behind.the.scenes", reLit "blooper", reLit "featurette",
   reLitDotAny "deleted.scene", reLitDotAny "alternate.ending"]

/-- `any(re.search(pattern, filename) for pattern in non_movie_patterns)`. -/
def hasNonMoviePattern (filename : Str) : Bool :=
  nonMoviePatterns.any (fun p => patSearch p filename)

/-- `FileOrganizer._detect_media_type` on a file name (the only part of the
path the source consults): extension bucketing, then the `s\d+e\d+` token test,
then the movie heuristics.  Returns the media type and the recognized flag. -/
def detect_media_type (cfg : Config) (name : Str) : MediaType × Bool :=
  let filename := lowerS name
  let ext := lowerS (get_file_extension name)
  let isVideo := (cfg.video_extensions.map lowerS).contains ext
  let isAudio := (cfg.audio_extensions.map lowerS).contains ext
  let isPhoto := (cfg.photo_extensions.map lowerS).contains ext
  if isVideo then
    if seTokenSearch filename then
      let info := extract_pattern_info filename
      (.tv_shows, info.season ≠ [] && info.episode ≠ [])
    else
      let info := extract_pattern_info filename
      if info.year ≠ [] then (.movies, true)
      else if info.title ≠ [] && info.title.length > 2 then
        if hasNonMoviePattern filename then (.movies, false)
        else (.movies, true)
      else (.movies, false)
  else if isAudio then (.music, false)
  else if isPhoto then (.photos, false)
  else (.movies, false)


-- ### Paths and directory entries

/-- Relative `pathlib` paths modelled as their component lists. -/
abbrev MPath := List Str

/-- `str(path)` for a relative path: components joined with `/`. -/
def pathStr (p : MPath) : Str := List.intercalate ("/".data) p

/-- `Path(s)` for the relative directory strings appearing in the
configuration: split on `/`, dropping empty components. -/
def pathOfStr (s : Str) : MPath := (s.splitOn '/').filter (fun c => c ≠ [])

/-- `path.name`. -/
def pathName (p : MPath) : Str := p.getLastD []

/-- `path.parent` (as component list; also `path.parent.parts`). -/
def pathParent (p : MPath) : MPath := p.dropLast

/-- An entry of `directory.iterdir()`, with the data the organizer consults:
its name, whether it is a regular file, whether `exists()` holds, and its
`stat` size in bytes. -/
structure FileEntry where
  name : Str
  isFile : Bool
  present : Bool
  size : Nat
deriving Repr, DecidableEq

/-- The hard-coded video extension list of `_is_sample_or_junk_file`. -/
def junkVideoExts : List Str :=
  [".mp4".data, ".avi".data, ".mkv".data, ".mov".data, ".wmv".data, ".flv".data, ".webm".data]

/-- `any(file_path.name.lower().endswith(ext) for ext in video_exts)`. -/
def endsWithVideoExt (fl : Str) : Bool :=
  junkVideoExts.any (fun ext => ext.isSuffixOf fl)

/-- The sample-indicator regex list of `_is_sample_or_junk_file`:
`\bsample\b, \btrailer\b, \bpreview\b, ^sample, sample\., -sample`
searched against the lowercased name. -/
def isSampleName (fl : Str) : Bool :=
  ciWordSearch ("sample".data) none fl ||
  ciWordSearch ("trailer".data) none fl ||
  ciWordSearch ("preview".data) none fl ||
  List.isPrefixOf ("sample".data) fl ||
  patSearch (reLit "sample.") fl ||
  patSearch (reLit "-sample") fl

/-- `FileOrganizer._is_sample_or_junk_file`: a missing file is not junk;
sample-named videos under 50MB and any video under 10MB are junk. -/
def is_sample_or_junk_file (e : FileEntry) : Bool :=
  if !e.present then false
  else
    let fl := lowerS e.name
    if isSampleName fl && endsWithVideoExt fl && decide (e.size < 50 * 1024 * 1024) then
      true
    else if endsWithVideoExt fl && decide (e.size < 10 * 1024 * 1024) then true
    else false

def imageExts : List Str :=
  [".jpg".data, ".jpeg".data, ".png".data, ".gif".data, ".bmp".data,
   ".webp".data, ".tiff".data, ".tif".data]

def metadataExts : List Str := [".nfo".data, ".xml".data, ".txt".data]

def subtitleExts : List Str :=
  [".srt".data, ".vtt".data, ".ass".data, ".ssa".data, ".sub".data, ".idx".data]

/-- `FileOrganizer._should_keep_with_main_file`: images, metadata and subtitles
are always kept; other files are kept unless the junk test fires. -/
def should_keep_with_main_file (e : FileEntry) : Bool :=
  let ext := lowerS (get_file_extension e.name)
  if imageExts.contains ext then true
  else if metadataExts.contains ext then true
  else if subtitleExts.contains ext then true
  else if is_sample_or_junk_file e then false
  else true

/-- The image/metadata extension list used by the lenient
`is_directory_match` test of `find_associated_files`. -/
def imgMetaExts : List Str :=
  [".jpg".data, ".jpeg".data, ".png".data, ".gif".data, ".bmp".data,
   ".webp".data, ".tiff".data, ".tif".data, ".nfo".data, ".xml".data]

/-- Python `x in y` on strings (exact substring). -/
def subInfix (w : Str) : Str → Bool
  | [] => w = []
  | s@(_ :: rest) => List.isPrefixOf w s || subInfix w rest

def commonAssocKeywords : List Str :=
  ["poster".data, "fanart".data, "banner".data, "logo".data,
   "clearart".data, "thumb".data, "backdrop".data]

/-- The per-entry inclusion test of `FileOrganizer.find_associated_files`
(the main file itself and non-files are skipped; the keep test runs first). -/
def assocIncludes (mainName : Str) (e : FileEntry) : Bool :=
  let mainBase := lowerS (pathStem mainName)
  let potBase := lowerS (pathStem e.name)
  let ext := lowerS (get_file_extension e.name)
  let isSimilarName :=
    potBase = mainBase ||
    List.isPrefixOf (mainBase ++ "-".data) potBase ||
    List.isPrefixOf (mainBase ++ "_".data) potBase ||
    List.isPrefixOf (mainBase ++ ".".data) potBase ||
    List.isPrefixOf potBase mainBase
  let isCommonPattern :=
    commonAssocKeywords.any (fun pat =>
      subInfix pat potBase && (subInfix mainBase potBase || subInfix potBase mainBase))
  let isImageOrMetadata := imgMetaExts.contains ext
  let isDirectoryMatch :=
    isImageOrMetadata &&
      (List.isPrefixOf (mainBase.take 10) potBase || List.isPrefixOf (potBase.take 10) mainBase)
  e.name ≠ mainName && e.isFile && should_keep_with_main_file e &&
    (isSimilarName || isCommonPattern || isDirectoryMatch)

/-- `FileOrganizer.find_associated_files` over a directory listing. -/
def find_associated_files (entries : List FileEntry) (mainName : Str) : List FileEntry :=
  entries.filter (assocIncludes mainName)

-- ### Directory planning (`_preserve_unorganized_structure`,
-- `create_directory_structure`) and move planning (`plan_file_move`)

/-- The generic directory names skipped by `_preserve_unorganized_structure`. -/
def genericNames : List Str :=
  ["downloads".data, "desktop".data, "documents".data,
   "videos".data, "pictures".data, "music".data]

/-- The per-part condition of the reversed preservation loop (the loop breaks
at the first failing part). -/
def preserveCond (part : Str) : Bool :=
  !(genericNames.contains (lowerS part)) && decide (part.length > 2)

/-- `FileOrganizer._preserve_unorganized_structure`: keep (up to 2 of) the
trailing meaningful directory names of the source under
`base/<media_type>/unorganized`. -/
def preserve_unorganized_structure (filePath : MPath) (basePath : MPath)
    (mediaType : Str) : MPath :=
  let sourceParts := pathParent filePath
  let preserved := takeRightWhile preserveCond (lastN 3 sourceParts)
  if preserved ≠ [] then
    let sanitized :=
      ((preserved.map sanitize_filename).filter (fun part => part ≠ [])).map replaceSpaceDot
    if sanitized ≠ [] then
      basePath ++ [mediaType, "unorganized".data] ++ sanitized.take 2
    else basePath ++ [mediaType, "unorganized".data]
  else basePath ++ [mediaType, "unorganized".data]

/-- `str(base_path) == str(Path(cat_dir))` for a configured category
directory that is set and not whitespace. -/
def catDirMatches (basePath : MPath) (catDir : Str) : Bool :=
  catDir ≠ [] && stripWs catDir ≠ [] && pathStr basePath = pathStr (pathOfStr catDir)

/-- `is_category_specific` as computed in `create_directory_structure`. -/
def isCategorySpecific (cfg : Config) (basePath : MPath) : Bool :=
  cfg.output_directories.any (fun e => catDirMatches basePath e.2)

/-- The inner structure-preserving loop used in the category-specific
unrecognized branches (last 2 parts, per-category generic-name sets, no
break). -/
def innerPreserved (filePath : MPath) (generics : List Str) : List Str :=
  (lastN 2 (pathParent filePath)).filterMap (fun part =>
    if decide (part.length > 2) && !(generics.contains (lowerS part)) then
      some (preserved_segment_name part)
    else none)

/-- The common unrecognized-branch logic of `create_directory_structure`
(identical for all four media types up to the generic-name set). -/
def unorganizedPath (cfg : Config) (basePath : MPath) (newPath : MPath)
    (mediaType : Str) (generics : List Str) (filePath : Option MPath) : MPath :=
  match filePath with
  | some fp =>
    let preservedPath := preserve_unorganized_structure fp basePath mediaType
    if isCategorySpecific cfg basePath then
      (newPath ++ ["unorganized".data]) ++ innerPreserved fp generics
    else preservedPath
  | none => newPath ++ ["unorganized".data]

/-- `FileOrganizer.create_directory_structure`, returning the resolved target
directory together with the list of `mkdir(parents=True, exist_ok=True)` calls
it performs (the single trailing `mkdir`, unless short-circuited). -/
def create_directory_structure (cfg : Config) (basePath : MPath)
    (mediaType : Option MediaType) (info : PatternInfo) (isRecognized : Bool)
    (filePath : Option MPath) : MPath × List MPath :=
  match mediaType with
  | none => (basePath, [])
  | some mt =>
    if cfg.organize_by = "none".data then (basePath, [])
    else
      let newPath0 :=
        if !isCategorySpecific cfg basePath && cfg.organize_by = "type".data then
          basePath ++ [mtStr mt]
        else basePath
      let newPath :=
        match mt with
        | .movies =>
          if isRecognized then newPath0
          else unorganizedPath cfg basePath newPath0 (mtStr mt)
            ["downloads".data, "desktop".data, "videos".data] filePath
        | .tv_shows =>
          if isRecognized && info.title ≠ [] then
            let showName := tv_show_dir_name info.title
            let p1 := newPath0 ++ [showName]
            if info.season ≠ [] then p1 ++ ["Season ".data ++ info.season] else p1
          else unorganizedPath cfg basePath newPath0 (mtStr mt)
            ["downloads".data, "desktop".data, "videos".data] filePath
        | .music =>
          if isRecognized then newPath0
          else unorganizedPath cfg basePath newPath0 (mtStr mt)
            ["downloads".data, "desktop".data, "music".data] filePath
        | .photos =>
          if isRecognized then newPath0
          else unorganizedPath cfg basePath newPath0 (mtStr mt)
            ["downloads".data, "desktop".data, "pictures".data, "photos".data] filePath
      (newPath, [newPath])

/-- The move plan dictionary produced by `plan_file_move`. -/
structure MovePlan where
  file : MPath
  src : MPath
  dst : MPath
  associated : List (MPath × MPath)
  changed : Bool
  media_type : MediaType
  is_recognized : Bool
  target_dir : MPath
deriving Repr, DecidableEq

/-- Resolution of the target base directory when `plan_file_move` is called
with `target_base_dir=None`: the category-specific output directory when set
and non-blank, otherwise the default output directory. -/
def planBaseDir (cfg : Config) (mediaType : MediaType) : MPath :=
  let categoryDir := lookupOutputDir cfg (mtStr mediaType)
  if categoryDir ≠ [] && stripWs categoryDir ≠ [] then pathOfStr categoryDir
  else pathOfStr cfg.output_directory

/-- `FileOrganizer.plan_file_move` over the listing of the file's directory.
Returns the plan and the `mkdir` side effects of directory resolution. -/
def plan_file_move (cfg : Config) (entries : List FileEntry) (filePath : MPath)
    (targetBaseDir : Option MPath) : MovePlan × List MPath :=
  let name := pathName filePath
  let md := detect_media_type cfg name
  let mediaType := md.1
  let isRecognized := md.2
  let patternInfo := extract_pattern_info name
  let newName := generate_new_filename (pathStem name) (get_file_extension name) patternInfo
  let base :=
    match targetBaseDir with
    | some b => b
    | none => planBaseDir cfg mediaType
  let cds :=
    create_directory_structure cfg base (some mediaType) patternInfo isRecognized
      (some filePath)
  let targetDir := cds.1
  let newPath := targetDir ++ [newName]
  let assoc := find_associated_files entries name
  let associatedMoves := assoc.map (fun e =>
    (pathParent filePath ++ [e.name], targetDir ++ [clean_filename e.name]))
  (⟨filePath, filePath, newPath, associatedMoves,
    pathStr filePath ≠ pathStr newPath, mediaType, isRecognized, targetDir⟩,
   cds.2)

-- ### `execute_move` and `_save_original_structure`

/-- Lexicographic order on strings by code point, matching Python string
comparison (used for `sorted` over paths). -/
def strLt : Str → Str → Bool
  | [], [] => false
  | [], _ :: _ => true
  | _ :: _, [] => false
  | a :: as, b :: bs => a < b || (a = b && strLt as bs)

def pathLe (a b : MPath) : Bool := strLt (pathStr a) (pathStr b) || pathStr a = pathStr b

def pairLe (m n : MPath × MPath) : Bool :=
  strLt (pathStr m.1) (pathStr n.1) ||
    (pathStr m.1 = pathStr n.1 &&
      (strLt (pathStr m.2) (pathStr n.2) || pathStr m.2 = pathStr n.2))

/-- `FileOrganizer._save_original_structure`: the mapping groups appended to
`original_structure.txt` — one group per original source directory, directories
sorted, entries sorted, exactly the mappings handed in. -/
def save_original_structure (maps : List (MPath × MPath)) :
    List (MPath × List (MPath × MPath)) :=
  let keys := ((maps.map (fun m => pathParent m.1)).dedup).insertionSort
    (fun a b => pathLe a b = true)
  keys.map (fun k =>
    (k, (maps.filter (fun m => pathParent m.1 = k)).insertionSort
      (fun x y => pairLe x y = true)))

/-- Outcome of `execute_move`: the boolean result, the moves actually
performed, the collected `file_mappings`, the mappings passed to
`_save_original_structure` (empty when it is not called) and the provenance
file location. -/
structure ExecResult where
  success : Bool
  moved : List (MPath × MPath)
  mappings : List (MPath × MPath)
  saved : List (MPath × MPath)
  savedAt : Option MPath
deriving Repr, DecidableEq

/-- The associated-file loop of `execute_move`: sequential, aborting at the
first failed move (already-performed moves are not rolled back). -/
def execAssocLoop (isRec : Bool) (moveOk : MPath → MPath → Bool) :
    List (MPath × MPath) → List (MPath × MPath) → List (MPath × MPath) →
    Bool × List (MPath × MPath) × List (MPath × MPath)
  | moved, maps, [] => (true, moved, maps)
  | moved, maps, (a, b) :: rest =>
    if moveOk a b then
      execAssocLoop isRec moveOk (moved ++ [(a, b)])
        (maps ++ (if !isRec then [(a, b)] else [])) rest
    else (false, moved, maps)

/-- `FileOrganizer.execute_move`, with the filesystem abstracted by the
success oracle `moveOk` for `move_file_cross_device`.  A failed move raises,
which is caught at the top: the function returns `False` and
`_save_original_structure` is never reached. -/
def execute_move (plan : MovePlan) (dryRun : Bool)
    (moveOk : MPath → MPath → Bool) : ExecResult :=
  if dryRun then ⟨true, [], [], [], none⟩
  else
    let mainStep :=
      if plan.changed then
        if moveOk plan.file plan.dst then
          some ([(plan.src, plan.dst)],
            if !plan.is_recognized then [(plan.src, plan.dst)] else [])
        else none
      else some ([], [])
    match mainStep with
    | none => ⟨false, [], [], [], none⟩
    | some (moved0, maps0) =>
      match execAssocLoop plan.is_recognized moveOk moved0 maps0 plan.associated with
      | (true, moved, maps) =>
        if maps ≠ [] && !plan.is_recognized then
          ⟨true, moved, maps, maps,
            some (plan.target_dir ++ ["original_structure.txt".data])⟩
        else ⟨true, moved, maps, [], none⟩
      | (false, moved, maps) => ⟨false, moved, maps, [], none⟩

-- ### `_cleanup_output_directory` (junk-file relocation)

def junkFilePatterns : List Str :=
  ["thumbs.db".data, ".ds_store".data, "desktop.ini".data, "folder.jpg".data]

def junkDirPatterns : List Str :=
  ["__pycache__".data, ".git".data, ".svn".data, ".cache".data]

def categoryFolders : List Str :=
  ["movies".data, "tv_shows".data, "music".data, "photos".data]

/-- `u ∈ p.parents` for relative paths: `u` is a proper component prefix. -/
def inParents (u p : MPath) : Bool := List.isPrefixOf u p && u ≠ p

/-- The `category_unorganized_dirs` map of `_cleanup_output_directory`:
each existing category folder mapped to its (created) `unorganized_files`
directory. -/
def buildCategoryUnorganized (outputDir : MPath) (dirPresent : MPath → Bool) :
    List (MPath × MPath) :=
  (categoryFolders.filter (fun c => dirPresent (outputDir ++ [c]))).map
    (fun c => (outputDir ++ [c], outputDir ++ [c, "unorganized_files".data]))

/-- The walk-iteration skip test: the current directory is one of the
`unorganized_files` directories or inside one. -/
def cleanupSkipDir (catMap : List (MPath × MPath)) (rootPath : MPath) : Bool :=
  catMap.any (fun cu => cu.2 = rootPath || inParents cu.2 rootPath)

/-- Determination of `target_unorganized_dir` for a walk directory: first the
equality/parents test, then the `relative_to` fallback. -/
def cleanupTargetUnorganized (catMap : List (MPath × MPath)) (rootPath : MPath) :
    Option MPath :=
  match catMap.find? (fun cu => rootPath = cu.1 || inParents cu.1 rootPath) with
  | some cu => some cu.2
  | none =>
    match catMap.find? (fun cu => List.isPrefixOf cu.1 rootPath) with
    | some cu => some cu.2
    | none => none

/-- The junk-file relocation moves attempted by one walk iteration of
`_cleanup_output_directory` (lines collecting files whose lowercased name
contains one of the junk patterns as a substring). -/
def cleanupFileMoves (catMap : List (MPath × MPath)) (rootPath : MPath)
    (files : List Str) : List (MPath × MPath) :=
  if cleanupSkipDir catMap rootPath then []
  else
    match cleanupTargetUnorganized catMap rootPath with
    | none => []
    | some _ =>
      files.filterMap (fun fileName =>
        let fl := lowerS fileName
        if junkFilePatterns.any (fun pat => subInfix pat fl) then
          let filePath := rootPath ++ [fileName]
          match catMap.find? (fun cu => List.isPrefixOf cu.1 filePath) with
          | none => none
          | some cu =>
            let rel := filePath.drop cu.1.length
            let dest :=
              if rel.dropLast = [] then cu.2 ++ [fileName]
              else if rel.length > 1 then cu.2 ++ rel.dropLast ++ [fileName]
              else cu.2 ++ [fileName]
            some (filePath, dest)
        else none)

-- ### Claim theorems

/-- A representative configuration: default output directory
`organized_media`, organization by type, no per-category override
directories. -/
def cfgDefault : Config :=
  ⟨[".mp4".data, ".mkv".data, ".avi".data], [".mp3".data], [".jpg".data],
   "organized_media".data, [], "type".data⟩

/-- C3 (code bug): the spec and the source's own comment promise bare-year
extraction over 1880–2030, but the regex `(19[89]\d|20[0-2]\d|2030)` only
matches 1980–2030: for `Metropolis 1900.mkv` (no TV match, no `(YYYY)`, no
`.YYYY`), the year 1900 lies in 1880–2030 and is not digit-adjacent, yet the
extracted year (and title) stay empty; the same input with 1980 is
extracted. -/
theorem c3_bare_year_range_bug :
    (extract_pattern_info ("Metropolis 1900.mkv".data)).year = [] ∧
    (extract_pattern_info ("Metropolis 1900.mkv".data)).title = [] ∧
    (extract_pattern_info ("Metropolis 1980.mkv".data)).year = "1980".data ∧
    (extract_pattern_info ("Metropolis 1980.mkv".data)).title = "Metropolis".data := by
  decide

/-- C2 (counterexample): planning is not free of filesystem mutation — on a
plain unrecognized video file, `plan_file_move` already performs a `mkdir`
of the target directory while only producing the plan. -/
theorem c2_counterexample :
    (plan_file_move cfgDefault [] ["downloads".data, "random-video-file.mp4".data] none).2 =
      [["organized_media".data, "movies".data, "unorganized".data]] ∧
    (plan_file_move cfgDefault [] ["downloads".data, "random-video-file.mp4".data] none).2 ≠ [] := by
  decide

theorem create_directory_structure_effects (cfg : Config) (basePath : MPath)
    (mt : MediaType) (info : PatternInfo) (isRec : Bool) (fp : Option MPath) :
    (create_directory_structure cfg basePath (some mt) info isRec fp).2 =
      (if cfg.organize_by = "none".data then []
       else [(create_directory_structure cfg basePath (some mt) info isRec fp).1]) := by
  by_cases h : cfg.organize_by = "none".data
  · simp [create_directory_structure, h]
  · simp [create_directory_structure, h]

/-- C2 (amended): every plan satisfies `changed = (str(source) ≠
str(destination))`, and plan generation is a pure function of its inputs whose
only filesystem mutation is the single idempotent `mkdir` of the resolved
target directory performed by `create_directory_structure` (none when
`organize_by = none`). -/
theorem c2_amended (cfg : Config) (entries : List FileEntry) (filePath : MPath)
    (tb : Option MPath) :
    ((plan_file_move cfg entries filePath tb).1.changed = true ↔
      pathStr (plan_file_move cfg entries filePath tb).1.src ≠
        pathStr (plan_file_move cfg entries filePath tb).1.dst) ∧
    (plan_file_move cfg entries filePath tb).2 =
      (if cfg.organize_by = "none".data then []
       else [(plan_file_move cfg entries filePath tb).1.target_dir]) := by
  constructor
  · exact decide_eq_true_iff
  · exact create_directory_structure_effects cfg
      (match tb with
       | some b => b
       | none => planBaseDir cfg (detect_media_type cfg (pathName filePath)).1)
      (detect_media_type cfg (pathName filePath)).1
      (extract_pattern_info (pathName filePath))
      (detect_media_type cfg (pathName filePath)).2 (some filePath)

-- ### Lemmas about the TV scanners

theorem takeWhile_append_all (p : Char → Bool) (l1 l2 : Str)
    (h : ∀ c ∈ l1, p c = true) :
    (l1 ++ l2).takeWhile p = l1 ++ l2.takeWhile p ∧
    (l1 ++ l2).dropWhile p = l2.dropWhile p := by
  induction l1 with
  | nil => simp
  | cons c cs ih =>
    have hc : p c = true := h c (by simp)
    have ihh := ih (fun d hd => h d (by simp [hd]))
    constructor
    · rw [List.cons_append, List.takeWhile_cons, if_pos hc, ihh.1, List.cons_append]
    · rw [List.cons_append, List.dropWhile_cons, if_pos hc, ihh.2]

theorem takeWhile_nil_of_head (p : Char → Bool) (s : Str)
    (h : ∀ c, s.head? = some c → p c = false) : s.takeWhile p = [] := by
  cases s with
  | nil => simp
  | cons c cs => rw [List.takeWhile_cons, if_neg (by simp [h c rfl])]


theorem seParse_groups : ∀ (w : Str) (a b : Str),
    seParse w = some (a, b) → a ≠ [] ∧ b ≠ [] := by
  intro w a b h
  unfold seParse at h
  split at h
  · simp at h
  · split at h
    · dsimp only at h
      split at h
      · simp at h
      · split at h
        · split at h
          · split at h
            · simp at h
            · simp at h
              constructor
              · rw [← h.1]; assumption
              · rw [← h.2]; assumption
          · simp at h
        · simp at h
    · simp at h

theorem tvTail2_groups (w : Str) (a b : Str)
    (h : tvTail2 w = some (a, b)) : a ≠ [] ∧ b ≠ [] := by
  unfold tvTail2 at h
  split at h
  · exact seParse_groups _ a b h
  · simp at h

theorem seParse_exact (sC eC : Char) (ds es rest : Str)
    (hs : sC = 'S' ∨ sC = 's') (hds : ds ≠ []) (hdsd : ∀ c ∈ ds, c.isDigit = true)
    (he : eC = 'E' ∨ eC = 'e') (hes : es ≠ []) (hesd : ∀ c ∈ es, c.isDigit = true) :
    seParse (sC :: (ds ++ eC :: (es ++ rest))) =
      some (ds, es ++ rest.takeWhile Char.isDigit) := by
  have hE : eC.isDigit = false := by
    rcases he with h | h <;> rw [h] <;> decide
  have hsc : (sC = 'S' || sC = 's') = true := by rcases hs with h | h <;> simp [h]
  have hec : (eC = 'E' || eC = 'e') = true := by rcases he with h | h <;> simp [h]
  have hsplit := takeWhile_append_all Char.isDigit ds (eC :: (es ++ rest)) hdsd
  have htk : (ds ++ eC :: (es ++ rest)).takeWhile Char.isDigit = ds := by
    rw [hsplit.1, List.takeWhile_cons, if_neg (by simp [hE])]
    simp
  have hdp : (ds ++ eC :: (es ++ rest)).dropWhile Char.isDigit = eC :: (es ++ rest) := by
    rw [hsplit.2, List.dropWhile_cons, if_neg (by simp [hE])]
  have hsplit2 := takeWhile_append_all Char.isDigit es rest hesd
  simp only [seParse]
  rw [if_pos hsc, htk, hdp]
  rw [if_neg hds]
  simp only
  rw [if_pos hec, hsplit2.1]
  rw [if_neg (by simp [hes])]

theorem tvScan1_groups : ∀ (s acc : Str) (t a b : Str),
    tvScan1 acc s = some (t, a, b) → a ≠ [] ∧ b ≠ [] := by
  intro s
  induction s with
  | nil => intro acc t a b h; simp [tvScan1] at h
  | cons c rest ih =>
    intro acc t a b h
    simp only [tvScan1] at h
    by_cases hb : (acc ≠ [] && isSep c) = true
    · rw [if_pos hb] at h
      rcases hsp : seParse rest with _ | ⟨ds, es⟩
      · rw [hsp] at h
        by_cases hn : c = '\n'
        · rw [if_pos hn] at h; simp at h
        · rw [if_neg hn] at h; exact ih (c :: acc) t a b h
      · rw [hsp] at h
        simp at h
        obtain ⟨g1, g2⟩ := seParse_groups rest ds es hsp
        exact ⟨by rw [← h.2.1]; exact g1, by rw [← h.2.2]; exact g2⟩
    · rw [if_neg hb] at h
      by_cases hn : c = '\n'
      · rw [if_pos hn] at h; simp at h
      · rw [if_neg hn] at h; exact ih (c :: acc) t a b h

theorem tvScan2_groups : ∀ (s acc : Str) (t a b : Str),
    tvScan2 acc s = some (t, a, b) → a ≠ [] ∧ b ≠ [] := by
  intro s
  induction s with
  | nil => intro acc t a b h; simp [tvScan2] at h
  | cons c rest ih =>
    intro acc t a b h
    simp only [tvScan2] at h
    by_cases hb : (acc ≠ [])
    · rw [if_pos (by simpa using hb)] at h
      rcases hsp : tvTail2 (c :: rest) with _ | ⟨ds, es⟩
      · rw [hsp] at h
        by_cases hn : c = '\n'
        · rw [if_pos hn] at h; simp at h
        · rw [if_neg hn] at h; exact ih (c :: acc) t a b h
      · rw [hsp] at h
        simp at h
        obtain ⟨g1, g2⟩ := tvTail2_groups (c :: rest) ds es hsp
        exact ⟨by rw [← h.2.1]; exact g1, by rw [← h.2.2]; exact g2⟩
    · rw [if_neg (by simpa using hb)] at h
      by_cases hn : c = '\n'
      · rw [if_pos hn] at h; simp at h
      · rw [if_neg hn] at h; exact ih (c :: acc) t a b h

theorem tvScan1_append_isSome (v : Str) (hv : (seParse v).isSome = true) :
    ∀ (u acc : Str), '\n' ∉ u → (acc ≠ [] ∨ u ≠ []) →
    (tvScan1 acc (u ++ '.' :: v)).isSome = true := by
  intro u
  induction u with
  | nil =>
    intro acc hnl hne
    have hacc : acc ≠ [] := by
      rcases hne with h | h
      · exact h
      · simp at h
    simp only [List.nil_append, tvScan1]
    rw [if_pos (by simp [hacc, isSep])]
    rcases hsp : seParse v with _ | ⟨ds, es⟩
    · rw [hsp] at hv
      simp at hv
    · rfl
  | cons c cs ih =>
    intro acc hnl hne
    have hcn : c ≠ '\n' := by
      intro hc
      exact hnl (by simp [hc])
    have hnl' : '\n' ∉ cs := fun hm => hnl (by simp [hm])
    simp only [List.cons_append, tvScan1]
    by_cases hb : (acc ≠ [] && isSep c) = true
    · rw [if_pos hb]
      rcases hsp : seParse (cs ++ '.' :: v) with _ | ⟨ds, es⟩
      · dsimp only
        rw [if_neg hcn]
        exact ih (c :: acc) hnl' (Or.inl (by simp))
      · rfl
    · rw [if_neg hb, if_neg hcn]
      exact ih (c :: acc) hnl' (Or.inl (by simp))

/-- C6 (confirmed): for every filename of the regex-matched form
`Title.S<digits>E<digits>...` (non-empty title with no newline — `(.+?)` cannot
cross one — case-insensitive `S`/`E`, arbitrary remainder),
`extract_pattern_info` yields non-empty `season` and `episode` and an empty
`year`, regardless of any 4-digit tokens elsewhere in the name. -/
theorem c6_tv_extraction (t ds es rest : Str) (sC eC : Char)
    (ht : t ≠ []) (hnl : '\n' ∉ t)
    (hs : sC = 'S' ∨ sC = 's') (he : eC = 'E' ∨ eC = 'e')
    (hds : ds ≠ []) (hdsd : ∀ c ∈ ds, c.isDigit = true)
    (hes : es ≠ []) (hesd : ∀ c ∈ es, c.isDigit = true) :
    (extract_pattern_info (t ++ '.' :: sC :: (ds ++ eC :: (es ++ rest)))).season ≠ [] ∧
    (extract_pattern_info (t ++ '.' :: sC :: (ds ++ eC :: (es ++ rest)))).episode ≠ [] ∧
    (extract_pattern_info (t ++ '.' :: sC :: (ds ++ eC :: (es ++ rest)))).year = [] := by
  have hsp : (seParse (sC :: (ds ++ eC :: (es ++ rest)))).isSome = true := by
    rw [seParse_exact sC eC ds es rest hs hds hdsd he hes hesd]
    rfl
  have hscan := tvScan1_append_isSome _ hsp t [] hnl (Or.inr ht)
  rcases hq : tvScan1 [] (t ++ '.' :: sC :: (ds ++ eC :: (es ++ rest))) with _ | ⟨t', a, b⟩
  · rw [hq] at hscan
    simp at hscan
  · obtain ⟨g1, g2⟩ := tvScan1_groups _ [] t' a b hq
    unfold extract_pattern_info
    rw [hq]
    exact ⟨g1, g2, rfl⟩

/-- Witness for C6 at `Show.S01E02.mkv`. -/
theorem c6_tv_extraction_witness :
    (extract_pattern_info ("Show.S01E02.mkv".data)).season ≠ [] ∧
    (extract_pattern_info ("Show.S01E02.mkv".data)).episode ≠ [] ∧
    (extract_pattern_info ("Show.S01E02.mkv".data)).year = [] := by
  have h := c6_tv_extraction ("Show".data) ("01".data) ("02".data) (".mkv".data) 'S' 'E'
    (by decide) (by decide) (Or.inl rfl) (Or.inl rfl)
    (by decide) (by decide) (by decide) (by decide)
  exact h

/-- C7 (confirmed): `find_associated_files` never returns the main file
itself, and whenever it returns a file that satisfies the sample/junk test,
that file's extension belongs to one of the always-keep classes (images,
metadata, subtitles); equivalently, it never returns a junk file whose
extension is outside the always-keep classes. -/
theorem c7_associated_exclusions (entries : List FileEntry) (mainName : Str)
    (e : FileEntry) (h : e ∈ find_associated_files entries mainName) :
    e.name ≠ mainName ∧
    (is_sample_or_junk_file e = true →
      (imageExts.contains (lowerS (get_file_extension e.name)) ||
       metadataExts.contains (lowerS (get_file_extension e.name)) ||
       subtitleExts.contains (lowerS (get_file_extension e.name))) = true) := by
  have hcond := (List.mem_filter.mp h).2
  unfold assocIncludes at hcond
  simp only [Bool.and_eq_true, decide_eq_true_eq] at hcond
  have hname : e.name ≠ mainName := hcond.1.1.1
  have hkeep : should_keep_with_main_file e = true := hcond.1.2
  refine ⟨hname, fun hjunk => ?_⟩
  unfold should_keep_with_main_file at hkeep
  dsimp only at hkeep
  by_cases h1 : imageExts.contains (lowerS (get_file_extension e.name)) = true
  · simp at h1
    simp [h1]
  · by_cases h2 : metadataExts.contains (lowerS (get_file_extension e.name)) = true
    · simp at h2
      simp [h2]
    · by_cases h3 : subtitleExts.contains (lowerS (get_file_extension e.name)) = true
      · simp at h3
        simp [h3]
      · exfalso
        rw [if_neg h1, if_neg h2, if_neg h3, if_pos hjunk] at hkeep
        simp at hkeep

/-- Witness for C7: a subtitle sidecar `movie.srt` next to `movie.mkv` is
associated, is not the main file, and vacuously satisfies the junk clause. -/
theorem c7_associated_exclusions_witness :
    (⟨"movie.srt".data, true, true, 1000⟩ : FileEntry).name ≠ "movie.mkv".data ∧
    (is_sample_or_junk_file ⟨"movie.srt".data, true, true, 1000⟩ = true →
      (imageExts.contains (lowerS (get_file_extension ("movie.srt".data))) ||
       metadataExts.contains (lowerS (get_file_extension ("movie.srt".data))) ||
       subtitleExts.contains (lowerS (get_file_extension ("movie.srt".data)))) = true) :=
  c7_associated_exclusions [⟨"movie.srt".data, true, true, 1000⟩] ("movie.mkv".data)
    ⟨"movie.srt".data, true, true, 1000⟩ (by decide)

-- ### Character invariants of the synthesized names (C10)

/-- The invariant claimed for synthesized names: no invalid filename
characters, and no leading or trailing space or dot. -/
def goodName (s : Str) : Prop :=
  (∀ c ∈ s, c ∉ invalidChars) ∧
  (∀ c, s.head? = some c → c ≠ ' ' ∧ c ≠ '.') ∧
  (∀ c, s.getLast? = some c → c ≠ ' ' ∧ c ≠ '.')

theorem rstrip_head?_eq (p : Char → Bool) (w : Str) (c : Char)
    (h : (rstrip p w).head? = some c) : w.head? = some c := by
  cases w with
  | nil => simp [rstrip] at h
  | cons x r =>
    rcases rstrip_head?_cases p x r with h0 | ⟨r', h0⟩
    · rw [h0] at h; simp at h
    · rw [h0] at h
      simp at h
      simp [← h]

theorem mem_dropWhile_imp (p : Char → Bool) :
    ∀ (s : Str) (a : Char), a ∈ s.dropWhile p → a ∈ s := by
  intro s
  induction s with
  | nil => intro a h; simp at h
  | cons c rest ih =>
    intro a h
    rw [List.dropWhile_cons] at h
    by_cases hc : p c = true
    · rw [if_pos hc] at h
      exact List.mem_cons_of_mem _ (ih a h)
    · rw [if_neg hc] at h
      exact h

theorem clean_filename_goodName (s : Str) : goodName (clean_filename s) := by
  refine ⟨?_, ?_, ?_⟩
  · intro c hc
    have h1 : c ∈ (s.map replaceInvalid) := by
      unfold clean_filename stripDotSpace at hc
      exact mem_dropWhile_imp _ _ _ (mem_rstrip _ _ _ hc)
    obtain ⟨a, _, ha2⟩ := List.mem_map.mp h1
    rw [← ha2]
    unfold replaceInvalid
    by_cases hm : a ∈ invalidChars
    · rw [if_pos hm]; decide
    · rw [if_neg hm]; exact hm
  · intro c hc
    unfold clean_filename stripDotSpace at hc
    have h1 := rstrip_head?_eq _ _ _ hc
    have h2 := dropWhile_head?_not isDotSpace _ _ h1
    unfold isDotSpace at h2
    simp at h2
    exact h2
  · intro c hc
    unfold clean_filename stripDotSpace at hc
    have h2 := rstrip_getLast?_not _ _ _ hc
    unfold isDotSpace at h2
    simp at h2
    exact h2

theorem collapseAux_chars (p : Char → Bool) (rep : Char) :
    ∀ (flag : Bool) (s : Str) (c : Char), c ∈ collapseAux p rep flag s →
      c = rep ∨ (c ∈ s ∧ p c = false) := by
  intro flag s
  induction s generalizing flag with
  | nil => intro c h; simp [collapseAux] at h
  | cons x rest ih =>
    intro c h
    simp only [collapseAux] at h
    by_cases hx : p x = true
    · rw [if_pos hx] at h
      by_cases hf : flag = true
      · rw [if_pos hf] at h
        rcases ih true c h with h1 | ⟨h2, h3⟩
        · exact Or.inl h1
        · exact Or.inr ⟨List.mem_cons_of_mem _ h2, h3⟩
      · rw [if_neg hf] at h
        rcases List.mem_cons.mp h with h1 | h1
        · exact Or.inl h1
        · rcases ih true c h1 with h2 | ⟨h3, h4⟩
          · exact Or.inl h2
          · exact Or.inr ⟨List.mem_cons_of_mem _ h3, h4⟩
    · rw [if_neg hx] at h
      rcases List.mem_cons.mp h with h1 | h1
      · refine Or.inr ⟨by simp [h1], ?_⟩
        rw [h1]
        simpa using hx
      · rcases ih false c h1 with h2 | ⟨h3, h4⟩
        · exact Or.inl h2
        · exact Or.inr ⟨List.mem_cons_of_mem _ h3, h4⟩

theorem collapseAux_ne_nil (p : Char → Bool) (rep : Char) :
    ∀ (s : Str) (flag : Bool), s ≠ [] →
      (∀ a, s.getLast? = some a → p a = false) →
      collapseAux p rep flag s ≠ [] := by
  intro s
  induction s with
  | nil => intro flag h _; exact absurd rfl h
  | cons x rest ih =>
    intro flag _ hlast
    simp only [collapseAux]
    by_cases hx : p x = true
    · have hrest : rest ≠ [] := by
        intro hr
        have := hlast x (by rw [hr]; simp)
        rw [hx] at this
        simp at this
      have hlast' : ∀ a, rest.getLast? = some a → p a = false := by
        intro a ha
        apply hlast
        rcases rest with _ | ⟨y, ys⟩
        · simp at ha
        · rw [List.getLast?_cons_cons]; exact ha
      rw [if_pos hx]
      by_cases hf : flag = true
      · rw [if_pos hf]
        exact ih true hrest hlast'
      · rw [if_neg hf]
        simp
    · rw [if_neg hx]
      simp

theorem collapseAux_getLast?_eq (p : Char → Bool) (rep : Char) :
    ∀ (s : Str) (flag : Bool),
      (∀ a, s.getLast? = some a → p a = false) →
      (collapseAux p rep flag s).getLast? = s.getLast? := by
  intro s
  induction s with
  | nil => intro flag _; simp [collapseAux]
  | cons x rest ih =>
    intro flag hlast
    simp only [collapseAux]
    rcases hr : rest with _ | ⟨y, ys⟩
    · have hx : p x = false := hlast x (by rw [hr]; simp)
      rw [if_neg (by simp [hx])]
      simp [collapseAux]
    · rw [← hr]
      have hrne : rest ≠ [] := by rw [hr]; simp
      have hlast' : ∀ a, rest.getLast? = some a → p a = false := by
        intro a ha
        apply hlast
        rw [hr] at ha ⊢
        rw [List.getLast?_cons_cons]
        exact ha
      have hxlast : (x :: rest).getLast? = rest.getLast? := by
        rw [hr, List.getLast?_cons_cons]
      by_cases hx : p x = true
      · rw [if_pos hx]
        have hne := collapseAux_ne_nil p rep rest true hrne hlast'
        by_cases hf : flag = true
        · rw [if_pos hf, ih true hlast', hxlast]
        · rw [if_neg hf]
          rcases hc : collapseAux p rep true rest with _ | ⟨z, zs⟩
          · exact absurd hc hne
          · rw [List.getLast?_cons_cons, ← hc, ih true hlast', hxlast]
      · rw [if_neg hx]
        have hne := collapseAux_ne_nil p rep rest false hrne hlast'
        rcases hc : collapseAux p rep false rest with _ | ⟨z, zs⟩
        · exact absurd hc hne
        · rw [List.getLast?_cons_cons, ← hc, ih false hlast', hxlast]

theorem mem_of_getLast?Some (l : Str) (a : Char) (h : l.getLast? = some a) : a ∈ l := by
  obtain ⟨hne, heq⟩ := List.mem_getLast?_eq_getLast (l := l) (x := a) (by simp [Option.mem_def, h])
  rw [heq]
  exact List.getLast_mem hne

theorem stripWs_head_not (w : Str) (c : Char)
    (h : (stripWs w).head? = some c) : isWs c = false :=
  dropWhile_head?_not isWs _ _ (rstrip_head?_eq _ _ _ h)

theorem stripWs_last_not (w : Str) (c : Char)
    (h : (stripWs w).getLast? = some c) : isWs c = false :=
  rstrip_getLast?_not _ _ _ h

theorem mem_stripWs_imp (w : Str) (c : Char) (h : c ∈ stripWs w) : c ∈ w :=
  mem_dropWhile_imp _ _ _ (mem_rstrip _ _ _ h)

theorem sanitize_chars (t : Str) (c : Char) (hc : c ∈ sanitize_filename t) :
    c ∉ invalidChars ∧ c ≠ '.' ∧ (isWs c = true → c = ' ') := by
  unfold sanitize_filename at hc
  have h4 : c ∈ collapseToChar isSepUnd ' '
      (clean_filename (removeBraceGroups (removeLeadingBracketGroup (stripWs t)))) :=
    mem_rstrip _ _ _ (mem_stripWs_imp _ _ hc)
  rcases collapseAux_chars isSepUnd ' ' false _ c h4 with h | ⟨h5, h6⟩
  · subst h
    refine ⟨by decide, by decide, fun _ => rfl⟩
  · have hni := (clean_filename_goodName _).1 c h5
    have hdot : c ≠ '.' := by
      intro hd
      rw [hd] at h6
      simp [isSepUnd, isWs] at h6
    have hws : isWs c = false := by
      rcases hb : isWs c
      · rfl
      · exfalso
        unfold isSepUnd at h6
        rw [hb] at h6
        simp at h6
    exact ⟨hni, hdot, fun hw => absurd hw (by simp [hws])⟩

theorem sanitize_head_not (t : Str) (c : Char)
    (h : (sanitize_filename t).head? = some c) : isWs c = false := by
  unfold sanitize_filename at h
  exact stripWs_head_not _ _ h

theorem sanitize_last_not (t : Str) (c : Char)
    (h : (sanitize_filename t).getLast? = some c) : isWs c = false := by
  unfold sanitize_filename at h
  exact stripWs_last_not _ _ h

theorem tv_show_dir_name_goodName (t : Str) : goodName (tv_show_dir_name t) := by
  unfold tv_show_dir_name subWsDot collapseToChar
  refine ⟨?_, ?_, ?_⟩
  · intro c hc
    rcases collapseAux_chars isWs '.' false _ c hc with h | ⟨h1, _⟩
    · subst h; decide
    · exact (sanitize_chars t c h1).1
  · intro c hc
    rcases hs : sanitize_filename t with _ | ⟨d, r⟩
    · rw [hs] at hc; simp [collapseAux] at hc
    · have hd : isWs d = false := sanitize_head_not t d (by rw [hs]; rfl)
      rw [hs] at hc
      simp only [collapseAux] at hc
      rw [if_neg (by simp [hd])] at hc
      simp at hc
      subst hc
      refine ⟨by intro h; rw [h] at hd; simp [isWs] at hd, ?_⟩
      have := (sanitize_chars t d (by rw [hs]; simp)).2.1
      exact this
  · intro c hc
    have hlast : ∀ a, (sanitize_filename t).getLast? = some a → isWs a = false :=
      fun a ha => sanitize_last_not t a ha
    rw [collapseAux_getLast?_eq isWs '.' _ false hlast] at hc
    have hw : isWs c = false := sanitize_last_not t c hc
    have hmem : c ∈ sanitize_filename t := by
      rcases hs : sanitize_filename t with _ | ⟨d, r⟩
      · rw [hs] at hc; simp at hc
      · rw [hs] at hc
        exact mem_of_getLast?Some _ _ (by rw [← hs] at hc ⊢; exact hc)
    refine ⟨by intro h; rw [h] at hw; simp [isWs] at hw, (sanitize_chars t c hmem).2.1⟩

theorem preserved_segment_name_goodName (p : Str) :
    goodName (preserved_segment_name p) := by
  unfold preserved_segment_name replaceSpaceDot
  refine ⟨?_, ?_, ?_⟩
  · intro c hc
    obtain ⟨a, ha1, ha2⟩ := List.mem_map.mp hc
    rw [← ha2]
    by_cases hsp : a = ' '
    · rw [if_pos hsp]; decide
    · rw [if_neg hsp]
      exact (sanitize_chars p a ha1).1
  · intro c hc
    rw [List.head?_map] at hc
    rcases hh : (sanitize_filename p).head? with _ | d
    · rw [hh] at hc; simp at hc
    · rw [hh] at hc
      simp at hc
      have hd : isWs d = false := sanitize_head_not p d hh
      have hdsp : d ≠ ' ' := by intro h; rw [h] at hd; simp [isWs] at hd
      rw [if_neg hdsp] at hc
      subst hc
      refine ⟨hdsp, ?_⟩
      have hmem : d ∈ sanitize_filename p := by
        rcases hs : sanitize_filename p with _ | ⟨x, r⟩
        · rw [hs] at hh; simp at hh
        · rw [hs] at hh; simp at hh; simp [hs, hh]
      exact (sanitize_chars p d hmem).2.1
  · intro c hc
    rw [List.getLast?_map] at hc
    rcases hh : (sanitize_filename p).getLast? with _ | d
    · rw [hh] at hc; simp at hc
    · rw [hh] at hc
      simp at hc
      have hd : isWs d = false := sanitize_last_not p d hh
      have hdsp : d ≠ ' ' := by intro h; rw [h] at hd; simp [isWs] at hd
      rw [if_neg hdsp] at hc
      subst hc
      refine ⟨hdsp, ?_⟩
      have hmem : d ∈ sanitize_filename p := mem_of_getLast?Some _ _ hh
      exact (sanitize_chars p d hmem).2.1

/-- C10 (confirmed): the filename returned by `generate_new_filename`,
excluding the appended extension, contains none of `<>:"/\|?*` and has no
leading or trailing spaces or dots; the same invariant holds for the TV-show
directory names and the preserved-segment directory names used for target
paths. -/
theorem c10_synthesized_name_invariant (stem : Str) (info : PatternInfo)
    (t p : Str) :
    goodName (generate_new_filename_base stem info) ∧
    goodName (tv_show_dir_name t) ∧
    goodName (preserved_segment_name p) := by
  refine ⟨?_, tv_show_dir_name_goodName t, preserved_segment_name_goodName p⟩
  unfold generate_new_filename_base
  by_cases h : info.title = []
  · rw [if_pos h]
    exact clean_filename_goodName _
  · rw [if_neg h]
    exact clean_filename_goodName _

-- ### Case equations for `extract_pattern_info`

theorem extract_eq_of_tvScan1 (f t a b : Str) (h : tvScan1 [] f = some (t, a, b)) :
    extract_pattern_info f =
      ⟨tvTitleClean t, [], a, b, detectQuality f, detectCodec f⟩ := by
  unfold extract_pattern_info
  rw [h]

theorem extract_eq_of_tvScan2 (f t a b : Str) (h1 : tvScan1 [] f = none)
    (h2 : tvScan2 [] f = some (t, a, b)) :
    extract_pattern_info f =
      ⟨tvTitleClean t, [], a, b, detectQuality f, detectCodec f⟩ := by
  unfold extract_pattern_info
  rw [h1, h2]

theorem extract_eq_of_movie1 (f t y : Str) (h1 : tvScan1 [] f = none)
    (h2 : tvScan2 [] f = none) (h3 : movie1Scan [] f = some (t, y)) :
    extract_pattern_info f =
      ⟨stripWs t, y, [], [], detectQuality f, detectCodec f⟩ := by
  unfold extract_pattern_info
  rw [h1, h2, h3]

theorem extract_eq_of_movie2 (f t y : Str) (h1 : tvScan1 [] f = none)
    (h2 : tvScan2 [] f = none) (h3 : movie1Scan [] f = none)
    (h4 : movie2Scan [] f = some (t, y)) :
    extract_pattern_info f =
      ⟨stripWs t, y, [], [], detectQuality f, detectCodec f⟩ := by
  unfold extract_pattern_info
  rw [h1, h2, h3, h4]

theorem extract_eq_of_bareYear (f pre y : Str) (h1 : tvScan1 [] f = none)
    (h2 : tvScan2 [] f = none) (h3 : movie1Scan [] f = none)
    (h4 : movie2Scan [] f = none) (h5 : bareYearScan [] f = some (pre, y)) :
    extract_pattern_info f =
      ⟨stripWs pre, y, [], [], detectQuality f, detectCodec f⟩ := by
  unfold extract_pattern_info
  rw [h1, h2, h3, h4, h5]

theorem extract_eq_of_none (f : Str) (h1 : tvScan1 [] f = none)
    (h2 : tvScan2 [] f = none) (h3 : movie1Scan [] f = none)
    (h4 : movie2Scan [] f = none) (h5 : bareYearScan [] f = none) :
    extract_pattern_info f =
      ⟨[], [], [], [], detectQuality f, detectCodec f⟩ := by
  unfold extract_pattern_info
  rw [h1, h2, h3, h4, h5]

-- ### Non-emptiness of the year captured by the movie and bare-year scanners

theorem movie1Tail_ne_nil (w y : Str) (h : movie1Tail w = some y) : y ≠ [] := by
  unfold movie1Tail at h
  split at h
  · unfold yearParen at h
    split at h
    · split at h
      · simp at h
        rw [← h]
        simp
      · simp at h
    · simp at h
  · simp at h

theorem movie1Scan_year_ne_nil : ∀ (s acc t y : Str),
    movie1Scan acc s = some (t, y) → y ≠ [] := by
  intro s
  induction s with
  | nil => intro acc t y h; simp [movie1Scan] at h
  | cons c rest ih =>
    intro acc t y h
    simp only [movie1Scan] at h
    by_cases hb : (acc ≠ []) = true
    · rw [if_pos (by simpa using hb)] at h
      rcases hm : movie1Tail (c :: rest) with _ | y'
      · rw [hm] at h
        by_cases hn : c = '\n'
        · rw [if_pos hn] at h; simp at h
        · rw [if_neg hn] at h; exact ih (c :: acc) t y h
      · rw [hm] at h
        simp at h
        rw [← h.2]
        exact movie1Tail_ne_nil _ _ hm
    · rw [if_neg (by simpa using hb)] at h
      by_cases hn : c = '\n'
      · rw [if_pos hn] at h; simp at h
      · rw [if_neg hn] at h; exact ih (c :: acc) t y h

theorem year4_ne_nil (w y : Str) (h : year4 w = some y) : y ≠ [] := by
  unfold year4 at h
  split at h
  · split at h
    · simp at h
      rw [← h]
      simp
    · simp at h
  · simp at h

theorem movie2Scan_year_ne_nil : ∀ (s acc t y : Str),
    movie2Scan acc s = some (t, y) → y ≠ [] := by
  intro s
  induction s with
  | nil => intro acc t y h; simp [movie2Scan] at h
  | cons c rest ih =>
    intro acc t y h
    simp only [movie2Scan] at h
    by_cases hb : (acc ≠ [] && c = '.') = true
    · rw [if_pos hb] at h
      rcases hm : year4 rest with _ | y'
      · rw [hm] at h
        by_cases hn : c = '\n'
        · rw [if_pos hn] at h; simp at h
        · rw [if_neg hn] at h; exact ih (c :: acc) t y h
      · rw [hm] at h
        simp at h
        rw [← h.2]
        exact year4_ne_nil _ _ hm
    · rw [if_neg hb] at h
      by_cases hn : c = '\n'
      · rw [if_pos hn] at h; simp at h
      · rw [if_neg hn] at h; exact ih (c :: acc) t y h

theorem bareYearAt_ne_nil (w y : Str) (h : bareYearAt w = some y) : y ≠ [] := by
  unfold bareYearAt at h
  split at h
  · dsimp only at h
    split at h
    · simp at h
      rw [← h]
      simp
    · split at h
      · simp at h
        rw [← h]
        simp
      · split at h
        · simp at h
          rw [← h]
          simp
        · simp at h
  · simp at h

theorem bareYearScan_year_ne_nil : ∀ (s acc pre y : Str),
    bareYearScan acc s = some (pre, y) → y ≠ [] := by
  intro s
  induction s with
  | nil => intro acc pre y h; simp [bareYearScan] at h
  | cons c rest ih =>
    intro acc pre y h
    simp only [bareYearScan] at h
    by_cases hb : (match acc.head? with
                   | some p => !p.isDigit
                   | none => true) = true
    · rw [if_pos hb] at h
      rcases hm : bareYearAt (c :: rest) with _ | y'
      · rw [hm] at h
        exact ih (c :: acc) pre y h
      · rw [hm] at h
        simp at h
        rw [← h.2]
        exact bareYearAt_ne_nil _ _ hm
    · rw [if_neg hb] at h
      exact ih (c :: acc) pre y h

/-- In `extract_pattern_info`, a non-empty title can only arise together with
a non-empty year or a non-empty season: with empty year and season the title
is empty (the movie branches always set a year, the TV branches a season). -/
theorem extract_title_empty (f : Str)
    (hy : (extract_pattern_info f).year = [])
    (hs : (extract_pattern_info f).season = []) :
    (extract_pattern_info f).title = [] := by
  rcases h1 : tvScan1 [] f with _ | ⟨t1, a1, b1⟩
  · rcases h2 : tvScan2 [] f with _ | ⟨t2, a2, b2⟩
    · rcases h3 : movie1Scan [] f with _ | ⟨t3, y3⟩
      · rcases h4 : movie2Scan [] f with _ | ⟨t4, y4⟩
        · rcases h5 : bareYearScan [] f with _ | ⟨p5, y5⟩
          · rw [extract_eq_of_none f h1 h2 h3 h4 h5]
          · exfalso
            rw [extract_eq_of_bareYear f p5 y5 h1 h2 h3 h4 h5] at hy
            exact bareYearScan_year_ne_nil f [] p5 y5 h5 hy
        · exfalso
          rw [extract_eq_of_movie2 f t4 y4 h1 h2 h3 h4] at hy
          exact movie2Scan_year_ne_nil f [] t4 y4 h4 hy
      · exfalso
        rw [extract_eq_of_movie1 f t3 y3 h1 h2 h3] at hy
        exact movie1Scan_year_ne_nil f [] t3 y3 h3 hy
    · exfalso
      rw [extract_eq_of_tvScan2 f t2 a2 b2 h1 h2] at hs
      exact (tvScan2_groups f [] t2 a2 b2 h2).1 hs
  · exfalso
    rw [extract_eq_of_tvScan1 f t1 a1 b1 h1] at hs
    exact (tvScan1_groups f [] t1 a1 b1 h1).1 hs

/-- C8 (counterexample): the non-movie keyword check does fire on the
space-separated variant — `'.'` in `behind.the.scenes` is a regex wildcard —
and such a file is classified `(movies, recognized=false)`, not
`(movies, recognized=true)` as the claim states. -/
theorem c8_counterexample :
    hasNonMoviePattern ("my film behind the scenes.mkv".data) = true ∧
    detect_media_type cfgDefault ("my film behind the scenes.mkv".data) =
      (MediaType.movies, false) := by
  decide

/-- C8 (amended): the dotted non-movie keywords are regex patterns whose `.`
matches any character, so they do match space-separated variants; moreover the
keyword branch cannot rescue or reject anything the claim describes, because a
non-empty extracted title implies a non-empty year or season: every video
filename with no `s\d+e\d+` token, no extracted year and no extracted season
is classified `(movies, recognized=false)`. -/
theorem c8_amended (cfg : Config) (name : Str)
    (hvid : (cfg.video_extensions.map lowerS).contains
      (lowerS (get_file_extension name)) = true)
    (hse : seTokenSearch (lowerS name) = false)
    (hy : (extract_pattern_info (lowerS name)).year = [])
    (hsn : (extract_pattern_info (lowerS name)).season = []) :
    detect_media_type cfg name = (MediaType.movies, false) := by
  have ht := extract_title_empty _ hy hsn
  unfold detect_media_type
  dsimp only
  rw [if_pos hvid, if_neg (by simp [hse]), if_neg (by simp [hy]),
    if_neg (by simp [ht])]

/-- Witness for the amended C8 at a concrete space-separated
`behind the scenes` filename. -/
theorem c8_amended_witness :
    detect_media_type cfgDefault ("great film behind the scenes.mkv".data) =
      (MediaType.movies, false) :=
  c8_amended cfgDefault ("great film behind the scenes.mkv".data)
    (by decide) (by decide) (by decide) (by decide)

-- ### Lemmas about `execute_move` and the provenance file (C5)

theorem execAssocLoop_inv (moveOk : MPath → MPath → Bool) :
    ∀ (l moved maps : List (MPath × MPath)), moved = maps →
      ((execAssocLoop false moveOk moved maps l).1 = true →
        (execAssocLoop false moveOk moved maps l).2.1 =
          (execAssocLoop false moveOk moved maps l).2.2) := by
  intro l
  induction l with
  | nil =>
    intro moved maps he _
    simpa [execAssocLoop] using he
  | cons ab rest ih =>
    intro moved maps he hok
    rcases ab with ⟨a, b⟩
    simp only [execAssocLoop] at hok ⊢
    by_cases hm : moveOk a b = true
    · rw [if_pos hm] at hok ⊢
      exact ih (moved ++ [(a, b)]) (maps ++ [(a, b)]) (by rw [he]) hok
    · rw [if_neg hm] at hok
      simp at hok

theorem save_original_structure_mem (maps : List (MPath × MPath))
    (m : MPath × MPath) (h : m ∈ maps) :
    ∃ es, (pathParent m.1, es) ∈ save_original_structure maps ∧ m ∈ es := by
  unfold save_original_structure
  refine ⟨(maps.filter (fun x => pathParent x.1 = pathParent m.1)).insertionSort
      (fun x y => pairLe x y = true), ?_, ?_⟩
  · apply List.mem_map.mpr
    refine ⟨pathParent m.1, ?_, rfl⟩
    apply ((List.perm_insertionSort _ _).mem_iff).mpr
    exact List.mem_dedup.mpr (List.mem_map_of_mem _ h)
  · apply ((List.perm_insertionSort _ _).mem_iff).mpr
    exact List.mem_filter.mpr ⟨h, by simp⟩

/-- C5 (counterexample): when a later associated move fails, the plan returns
failure and `_save_original_structure` is never called — the main move that
did succeed is recorded nowhere.  Concrete unrecognized plan with one
associated subtitle whose move fails. -/
theorem c5_counterexample :
    (execute_move
      (plan_file_move cfgDefault
        [⟨"random-video-file.mp4".data, true, true, 100000000⟩,
         ⟨"random-video-file.srt".data, true, true, 1000⟩]
        ["downloads".data, "random-video-file.mp4".data] none).1
      false
      (fun a _ => decide (a ≠ ["downloads".data, "random-video-file.srt".data]))).success
        = false ∧
    (execute_move
      (plan_file_move cfgDefault
        [⟨"random-video-file.mp4".data, true, true, 100000000⟩,
         ⟨"random-video-file.srt".data, true, true, 1000⟩]
        ["downloads".data, "random-video-file.mp4".data] none).1
      false
      (fun a _ => decide (a ≠ ["downloads".data, "random-video-file.srt".data]))).moved
        = [(["downloads".data, "random-video-file.mp4".data],
            ["organized_media".data, "movies".data, "unorganized".data,
             "random-video-file.mp4".data])] ∧
    (execute_move
      (plan_file_move cfgDefault
        [⟨"random-video-file.mp4".data, true, true, 100000000⟩,
         ⟨"random-video-file.srt".data, true, true, 1000⟩]
        ["downloads".data, "random-video-file.mp4".data] none).1
      false
      (fun a _ => decide (a ≠ ["downloads".data, "random-video-file.srt".data]))).saved
        = [] := by
  decide

/-- C5 (amended): for a real (non-dry) execution of an unrecognized plan,
provenance is written only when every move succeeds — and then it records
exactly the performed moves (main, when `changed`, and each associated file),
each grouped in `original_structure.txt` under its original source directory;
when any move fails the plan returns failure and nothing at all is recorded,
the already-performed moves included. -/
theorem c5_amended (plan : MovePlan) (moveOk : MPath → MPath → Bool)
    (hrec : plan.is_recognized = false) :
    ((execute_move plan false moveOk).success = true →
      (execute_move plan false moveOk).saved = (execute_move plan false moveOk).moved ∧
      ∀ m ∈ (execute_move plan false moveOk).moved,
        ∃ es, (pathParent m.1, es) ∈
            save_original_structure (execute_move plan false moveOk).saved ∧ m ∈ es) ∧
    ((execute_move plan false moveOk).success = false →
      (execute_move plan false moveOk).saved = []) := by
  unfold execute_move
  rw [if_neg (by simp)]
  rw [hrec]
  simp only [Bool.not_false, Bool.and_true, eq_self_iff_true, if_true]
  by_cases hch : plan.changed = true
  · rw [if_pos hch]
    by_cases hmv : moveOk plan.file plan.dst = true
    · rw [if_pos hmv]
      dsimp only
      rcases hl : execAssocLoop false moveOk [(plan.src, plan.dst)]
          [(plan.src, plan.dst)] plan.associated with ⟨ok, moved, maps⟩
      have hinv := execAssocLoop_inv moveOk plan.associated
        [(plan.src, plan.dst)] [(plan.src, plan.dst)] rfl
      rw [hl] at hinv
      rcases ok with _ | _
      · exact ⟨fun hc => by simp at hc, fun _ => rfl⟩
      · have hmm : moved = maps := hinv rfl
        dsimp only
        by_cases hne : maps ≠ []
        · rw [if_pos (by simp [hne])]
          refine ⟨fun _ => ⟨by dsimp only; rw [hmm], ?_⟩, fun hc => by simp at hc⟩
          intro m hm
          dsimp only at hm ⊢
          exact save_original_structure_mem maps m (by rw [← hmm]; exact hm)
        · rw [if_neg (by simp at hne ⊢; simp [hne])]
          refine ⟨fun _ => ⟨?_, ?_⟩, fun hc => by simp at hc⟩
          · dsimp only
            simp at hne
            rw [hne] at hmm
            rw [hmm]
          · intro m hm
            dsimp only at hm
            simp at hne
            rw [hne] at hmm
            rw [hmm] at hm
            simp at hm
    · rw [if_neg hmv]
      dsimp only
      exact ⟨fun hc => by simp at hc, fun _ => rfl⟩
  · rw [if_neg hch]
    dsimp only
    rcases hl : execAssocLoop false moveOk [] [] plan.associated with ⟨ok, moved, maps⟩
    have hinv := execAssocLoop_inv moveOk plan.associated [] [] rfl
    rw [hl] at hinv
    rcases ok with _ | _
    · exact ⟨fun hc => by simp at hc, fun _ => rfl⟩
    · have hmm : moved = maps := hinv rfl
      dsimp only
      by_cases hne : maps ≠ []
      · rw [if_pos (by simp [hne])]
        refine ⟨fun _ => ⟨by dsimp only; rw [hmm], ?_⟩, fun hc => by simp at hc⟩
        intro m hm
        dsimp only at hm ⊢
        exact save_original_structure_mem maps m (by rw [← hmm]; exact hm)
      · rw [if_neg (by simp at hne ⊢; simp [hne])]
        refine ⟨fun _ => ⟨?_, ?_⟩, fun hc => by simp at hc⟩
        · dsimp only
          simp at hne
          rw [hne] at hmm
          rw [hmm]
        · intro m hm
          dsimp only at hm
          simp at hne
          rw [hne] at hmm
          rw [hmm] at hm
          simp at hm

/-- Witness for the amended C5: full success on the same unrecognized plan
records exactly the two performed moves, grouped under `downloads`. -/
theorem c5_amended_witness :
    ((execute_move
      (plan_file_move cfgDefault
        [⟨"random-video-file.mp4".data, true, true, 100000000⟩,
         ⟨"random-video-file.srt".data, true, true, 1000⟩]
        ["downloads".data, "random-video-file.mp4".data] none).1
      false (fun _ _ => true)).success = true →
      (execute_move
        (plan_file_move cfgDefault
          [⟨"random-video-file.mp4".data, true, true, 100000000⟩,
           ⟨"random-video-file.srt".data, true, true, 1000⟩]
          ["downloads".data, "random-video-file.mp4".data] none).1
        false (fun _ _ => true)).saved =
      (execute_move
        (plan_file_move cfgDefault
          [⟨"random-video-file.mp4".data, true, true, 100000000⟩,
           ⟨"random-video-file.srt".data, true, true, 1000⟩]
          ["downloads".data, "random-video-file.mp4".data] none).1
        false (fun _ _ => true)).moved ∧
      ∀ m ∈ (execute_move
        (plan_file_move cfgDefault
          [⟨"random-video-file.mp4".data, true, true, 100000000⟩,
           ⟨"random-video-file.srt".data, true, true, 1000⟩]
          ["downloads".data, "random-video-file.mp4".data] none).1
        false (fun _ _ => true)).moved,
        ∃ es, (pathParent m.1, es) ∈
            save_original_structure (execute_move
              (plan_file_move cfgDefault
                [⟨"random-video-file.mp4".data, true, true, 100000000⟩,
                 ⟨"random-video-file.srt".data, true, true, 1000⟩]
                ["downloads".data, "random-video-file.mp4".data] none).1
              false (fun _ _ => true)).saved ∧ m ∈ es) ∧
    ((execute_move
      (plan_file_move cfgDefault
        [⟨"random-video-file.mp4".data, true, true, 100000000⟩,
         ⟨"random-video-file.srt".data, true, true, 1000⟩]
        ["downloads".data, "random-video-file.mp4".data] none).1
      false (fun _ _ => true)).success = false →
      (execute_move
        (plan_file_move cfgDefault
          [⟨"random-video-file.mp4".data, true, true, 100000000⟩,
           ⟨"random-video-file.srt".data, true, true, 1000⟩]
          ["downloads".data, "random-video-file.mp4".data] none).1
        false (fun _ _ => true)).saved = []) :=
  c5_amended
    (plan_file_move cfgDefault
      [⟨"random-video-file.mp4".data, true, true, 100000000⟩,
       ⟨"random-video-file.srt".data, true, true, 1000⟩]
      ["downloads".data, "random-video-file.mp4".data] none).1
    (fun _ _ => true) (by decide)

/-- C9 (confirmed, implicit behavior): the output-directory cleanup matches
junk file names by substring — any file under a managed category subtree
(outside the quarantines) whose lowercased name merely contains one of
`thumbs.db`, `.ds_store`, `desktop.ini`, `folder.jpg` is relocated into a
category `unorganized_files` quarantine directory. -/
theorem c9_cleanup_substring_match (outputDir : MPath) (dirPresent : MPath → Bool)
    (rootPath : MPath) (files : List Str) (name : Str) (cat unorg : MPath)
    (hcat : (cat, unorg) ∈ buildCategoryUnorganized outputDir dirPresent)
    (hroot : rootPath = cat ∨ inParents cat rootPath = true)
    (hskip : cleanupSkipDir (buildCategoryUnorganized outputDir dirPresent) rootPath = false)
    (hmem : name ∈ files)
    (hjunk : junkFilePatterns.any (fun pat => subInfix pat (lowerS name)) = true) :
    ∃ dest cu, cu ∈ buildCategoryUnorganized outputDir dirPresent ∧
      (rootPath ++ [name], dest) ∈
        cleanupFileMoves (buildCategoryUnorganized outputDir dirPresent) rootPath files ∧
      List.isPrefixOf cu.2 dest = true := by
  have hfind1 : ((buildCategoryUnorganized outputDir dirPresent).find?
      (fun cu => rootPath = cu.1 || inParents cu.1 rootPath)).isSome = true := by
    rw [List.find?_isSome]
    refine ⟨(cat, unorg), hcat, ?_⟩
    rcases hroot with h | h
    · simp [h]
    · simp [h]
  have hpre : List.isPrefixOf cat (rootPath ++ [name]) = true := by
    rw [List.isPrefixOf_iff_prefix]
    rcases hroot with h | h
    · rw [h]; exact List.prefix_append _ _
    · unfold inParents at h
      simp only [Bool.and_eq_true, decide_eq_true_eq] at h
      exact (List.isPrefixOf_iff_prefix.mp h.1).trans (List.prefix_append _ _)
  have hfind2 : ((buildCategoryUnorganized outputDir dirPresent).find?
      (fun cu => List.isPrefixOf cu.1 (rootPath ++ [name]))).isSome = true := by
    rw [List.find?_isSome]
    exact ⟨(cat, unorg), hcat, by simpa using hpre⟩
  obtain ⟨cu1, hcu1⟩ := Option.isSome_iff_exists.mp hfind2
  have hcu1mem := List.mem_of_find?_eq_some hcu1
  obtain ⟨u0, hu0⟩ := Option.isSome_iff_exists.mp hfind1
  refine ⟨(if ((rootPath ++ [name]).drop cu1.1.length).dropLast = [] then cu1.2 ++ [name]
           else if ((rootPath ++ [name]).drop cu1.1.length).length > 1 then
             cu1.2 ++ ((rootPath ++ [name]).drop cu1.1.length).dropLast ++ [name]
           else cu1.2 ++ [name]), cu1, hcu1mem, ?_, ?_⟩
  · unfold cleanupFileMoves
    rw [if_neg (by simp [hskip])]
    have htgt : cleanupTargetUnorganized (buildCategoryUnorganized outputDir dirPresent)
        rootPath = some u0.2 := by
      unfold cleanupTargetUnorganized
      rw [hu0]
    rw [htgt]
    apply List.mem_filterMap.mpr
    refine ⟨name, hmem, ?_⟩
    dsimp only
    rw [if_pos hjunk, hcu1]
  · split
    · rw [List.isPrefixOf_iff_prefix]; exact List.prefix_append _ _
    · split
      · rw [List.isPrefixOf_iff_prefix, List.append_assoc]
        exact List.prefix_append _ _
      · rw [List.isPrefixOf_iff_prefix]; exact List.prefix_append _ _

/-- Witness for C9: a poster legitimately named `Myfolder.jpg` directly under
`out/movies` is relocated, because its lowercased name contains `folder.jpg`. -/
theorem c9_cleanup_substring_match_witness :
    ∃ dest cu, cu ∈ buildCategoryUnorganized ["out".data] (fun _ => true) ∧
      ((["out".data, "movies".data] ++ ["Myfolder.jpg".data]), dest) ∈
        cleanupFileMoves (buildCategoryUnorganized ["out".data] (fun _ => true))
          ["out".data, "movies".data] ["Myfolder.jpg".data] ∧
      List.isPrefixOf cu.2 dest = true :=
  c9_cleanup_substring_match ["out".data] (fun _ => true) ["out".data, "movies".data]
    ["Myfolder.jpg".data] ("Myfolder.jpg".data)
    (["out".data, "movies".data]) (["out".data, "movies".data, "unorganized_files".data])
    (by decide) (Or.inl rfl) (by decide) (by decide) (by decide)

-- ### Idempotence of planning (C1)

/-- C1 (counterexample): re-planning is not idempotent for unrecognized
files — the second pass re-nests the already-organized file under a deeper
`unorganized/...` subtree and reports `changed = true`.  The file below lands
at `organized_media/movies/unorganized/random-video-file.mp4` on the first
pass; planning that destination again yields `changed = true`. -/
theorem c1_counterexample :
    (plan_file_move cfgDefault [] ["downloads".data, "random-video-file.mp4".data]
      none).1.is_recognized = false ∧
    (plan_file_move cfgDefault [] ["downloads".data, "random-video-file.mp4".data]
      none).1.dst =
      ["organized_media".data, "movies".data, "unorganized".data,
       "random-video-file.mp4".data] ∧
    (plan_file_move cfgDefault []
      ["organized_media".data, "movies".data, "unorganized".data,
       "random-video-file.mp4".data] none).1.changed = true := by
  decide

theorem create_recognized_dir (cfg : Config) (base : MPath) (mt : MediaType)
    (info info' : PatternInfo) (fp fp' : Option MPath)
    (horg : cfg.organize_by = "type".data)
    (ht : info.title = info'.title) (hs : info.season = info'.season)
    (htne : info'.title ≠ []) :
    (create_directory_structure cfg base (some mt) info true fp).1 =
    (create_directory_structure cfg base (some mt) info' true fp').1 := by
  have horgne : ¬(cfg.organize_by = "none".data) := by
    rw [horg]; decide
  unfold create_directory_structure
  dsimp only
  rw [if_neg horgne, if_neg horgne]
  cases mt
  case movies => simp
  case tv_shows =>
    dsimp only
    rw [ht, hs]
    simp [htne]
  case music => simp
  case photos => simp

theorem generate_eq_of_fields (stem stem' ext : Str) (info info' : PatternInfo)
    (ht : info.title = info'.title) (hy : info.year = info'.year)
    (hs : info.season = info'.season) (he : info.episode = info'.episode)
    (htne : info'.title ≠ []) :
    generate_new_filename stem ext info = generate_new_filename stem' ext info' := by
  unfold generate_new_filename generate_new_filename_base
  rw [ht, hy, hs, he]
  rw [if_neg htne, if_neg htne]

/-- C1 (amended): idempotence holds on the second pass exactly when the
synthesized name is stable under re-analysis: for a recognized first plan
whose destination name re-classifies identically, re-extracts the same
title/year/season/episode with a non-empty title, and keeps its extension,
re-planning the destination yields `changed = false`.  Without these
stability conditions the claim fails: unrecognized files are re-nested
deeper (see the counterexample), and pathological sanitizations can even
flip the detected category. -/
theorem c1_amended (cfg : Config) (entries1 entries2 : List FileEntry) (f : MPath)
    (horg : cfg.organize_by = "type".data)
    (hrec : (plan_file_move cfg entries1 f none).1.is_recognized = true)
    (hdet : detect_media_type cfg (pathName ((plan_file_move cfg entries1 f none).1.dst)) =
            detect_media_type cfg (pathName f))
    (hext : get_file_extension (pathName ((plan_file_move cfg entries1 f none).1.dst)) =
            get_file_extension (pathName f))
    (ht : (extract_pattern_info (pathName ((plan_file_move cfg entries1 f none).1.dst))).title =
          (extract_pattern_info (pathName f)).title)
    (hy : (extract_pattern_info (pathName ((plan_file_move cfg entries1 f none).1.dst))).year =
          (extract_pattern_info (pathName f)).year)
    (hs : (extract_pattern_info (pathName ((plan_file_move cfg entries1 f none).1.dst))).season =
          (extract_pattern_info (pathName f)).season)
    (he : (extract_pattern_info (pathName ((plan_file_move cfg entries1 f none).1.dst))).episode =
          (extract_pattern_info (pathName f)).episode)
    (htne : (extract_pattern_info (pathName f)).title ≠ []) :
    (plan_file_move cfg entries2 ((plan_file_move cfg entries1 f none).1.dst)
      none).1.changed = false := by
  have hrec' : (detect_media_type cfg (pathName f)).2 = true := hrec
  have hchanged : (plan_file_move cfg entries2 ((plan_file_move cfg entries1 f none).1.dst)
      none).1.changed =
      decide (pathStr ((plan_file_move cfg entries1 f none).1.dst) ≠ pathStr
        ((create_directory_structure cfg
            (planBaseDir cfg
              (detect_media_type cfg (pathName ((plan_file_move cfg entries1 f none).1.dst))).1)
            (some (detect_media_type cfg
              (pathName ((plan_file_move cfg entries1 f none).1.dst))).1)
            (extract_pattern_info (pathName ((plan_file_move cfg entries1 f none).1.dst)))
            (detect_media_type cfg (pathName ((plan_file_move cfg entries1 f none).1.dst))).2
            (some ((plan_file_move cfg entries1 f none).1.dst))).1 ++
         [generate_new_filename
            (pathStem (pathName ((plan_file_move cfg entries1 f none).1.dst)))
            (get_file_extension (pathName ((plan_file_move cfg entries1 f none).1.dst)))
            (extract_pattern_info (pathName ((plan_file_move cfg entries1 f none).1.dst)))])) :=
    rfl
  have hdst : (plan_file_move cfg entries1 f none).1.dst =
      (create_directory_structure cfg (planBaseDir cfg (detect_media_type cfg (pathName f)).1)
        (some (detect_media_type cfg (pathName f)).1) (extract_pattern_info (pathName f))
        (detect_media_type cfg (pathName f)).2 (some f)).1 ++
      [generate_new_filename (pathStem (pathName f)) (get_file_extension (pathName f))
        (extract_pattern_info (pathName f))] := rfl
  rw [hchanged, hdet, hrec']
  rw [create_recognized_dir cfg
      (planBaseDir cfg (detect_media_type cfg (pathName f)).1)
      (detect_media_type cfg (pathName f)).1
      (extract_pattern_info (pathName ((plan_file_move cfg entries1 f none).1.dst)))
      (extract_pattern_info (pathName f))
      (some ((plan_file_move cfg entries1 f none).1.dst)) (some f) horg ht hs htne]
  rw [hext]
  rw [generate_eq_of_fields
      (pathStem (pathName ((plan_file_move cfg entries1 f none).1.dst)))
      (pathStem (pathName f)) (get_file_extension (pathName f))
      (extract_pattern_info (pathName ((plan_file_move cfg entries1 f none).1.dst)))
      (extract_pattern_info (pathName f)) ht hy hs he htne]
  conv_lhs =>
    rw [show (create_directory_structure cfg
        (planBaseDir cfg (detect_media_type cfg (pathName f)).1)
        (some (detect_media_type cfg (pathName f)).1) (extract_pattern_info (pathName f))
        true (some f)).1 ++
        [generate_new_filename (pathStem (pathName f)) (get_file_extension (pathName f))
          (extract_pattern_info (pathName f))] =
      (plan_file_move cfg entries1 f none).1.dst from by rw [hdst, hrec']]
  simp

/-- Witness for the amended C1: a recognized movie file; the second pass over
its first-pass destination reports `changed = false`. -/
theorem c1_amended_witness :
    (plan_file_move cfgDefault []
      ((plan_file_move cfgDefault []
        ["downloads".data, "The.Matrix.1999.1080p.BluRay.x264.mkv".data] none).1.dst)
      none).1.changed = false :=
  c1_amended cfgDefault [] []
    ["downloads".data, "The.Matrix.1999.1080p.BluRay.x264.mkv".data]
    (by decide) (by decide) (by decide) (by decide) (by decide) (by decide)
    (by decide) (by decide) (by decide)

-- ### Round-trip machinery (C4)

/-- A case-insensitive `S\d+E\d+` shape at some suffix (what can trigger the
`S..E..` tail anywhere). -/
def hasSEci : Str → Bool
  | [] => false
  | s@(_ :: rest) => (seParse s).isSome || hasSEci rest

/-- A `.` directly followed by four digits at some position. -/
def hasDotYear4 : Str → Bool
  | [] => false
  | c :: rest => (c = '.' && (year4 rest).isSome) || hasDotYear4 rest

/-- A `(` directly followed by four digits and `)` at some position. -/
def hasParenYear : Str → Bool
  | [] => false
  | c :: rest => (c = '(' && (yearParen rest).isSome) || hasParenYear rest

/-- A separator position whose tail parses as `S\d+E\d+` (exactly what makes
the first TV scanner succeed somewhere). -/
def hasSepSE : Str → Bool
  | [] => false
  | c :: rest => (isSep c && (seParse rest).isSome) || hasSepSE rest

/-- A position whose suffix satisfies the `\s*-\s*S\d+E\d+` tail. -/
def hasTail2 : Str → Bool
  | [] => false
  | s@(_ :: rest) => (tvTail2 s).isSome || hasTail2 rest

/-- A position whose suffix satisfies the `\s*\((\d{4})\)` tail. -/
def hasMovie1Tail : Str → Bool
  | [] => false
  | s@(_ :: rest) => (movie1Tail s).isSome || hasMovie1Tail rest

/-- Extension body characters that cannot interfere with any pattern:
lowercase letters other than `s` and `e`. -/
def extChar (c : Char) : Bool := c.isAlpha && c.isLower && !(c = 's') && !(c = 'e')

/-- A well-behaved extension for round-tripping: empty, or a dot followed by
lowercase letters other than `s` and `e`. -/
def extOk (s : Str) : Bool := s = [] || (s.head? = some '.' && s.tail.all extChar)

theorem isSep_cases (c : Char) (h : isSep c = true) :
    c = '.' ∨ c = ' ' ∨ c = '\t' ∨ c = '\n' ∨ c = '\r' ∨ c = '\x0b' ∨ c = '\x0c' := by
  unfold isSep isWs at h
  simp at h
  tauto

theorem digit_not_sep (c : Char) (h : c.isDigit = true) : isSep c = false := by
  rcases hs : isSep c
  · rfl
  · exfalso
    rcases isSep_cases c hs with h1 | h1 | h1 | h1 | h1 | h1 | h1 <;>
      (subst h1; simp at h)

theorem alpha_not_sep (c : Char) (h : c.isAlpha = true) : isSep c = false := by
  rcases hs : isSep c
  · rfl
  · exfalso
    rcases isSep_cases c hs with h1 | h1 | h1 | h1 | h1 | h1 | h1 <;>
      (subst h1; simp at h)

theorem invalid_cases (c : Char) (h : c ∈ invalidChars) :
    c = '<' ∨ c = '>' ∨ c = ':' ∨ c = '"' ∨ c = '/' ∨ c = '\\' ∨ c = '|' ∨
    c = '?' ∨ c = '*' := by
  unfold invalidChars at h
  simp at h
  tauto

theorem digit_not_invalid (c : Char) (h : c.isDigit = true) : c ∉ invalidChars := by
  intro hm
  rcases invalid_cases c hm with h1|h1|h1|h1|h1|h1|h1|h1|h1 <;> (subst h1; simp at h)

-- ### Join equalities: appending `'.' :: v` does not change the local parsers

theorem takeWhile_append_mid (p : Char → Bool) (a : Char) (ha : p a = false) :
    ∀ (w z : Str), (w ++ a :: z).takeWhile p = w.takeWhile p ∧
      (w ++ a :: z).dropWhile p = w.dropWhile p ++ a :: z := by
  intro w
  induction w with
  | nil =>
    intro z
    constructor
    · rw [List.nil_append, List.takeWhile_cons, if_neg (by simp [ha])]
      simp
    · rw [List.nil_append, List.dropWhile_cons, if_neg (by simp [ha])]
      simp
  | cons x xs ih =>
    intro z
    constructor
    · rw [List.cons_append, List.takeWhile_cons, List.takeWhile_cons]
      by_cases hx : p x = true
      · rw [if_pos hx, if_pos hx, (ih z).1]
      · rw [if_neg hx, if_neg hx]
    · rw [List.cons_append, List.dropWhile_cons, List.dropWhile_cons]
      by_cases hx : p x = true
      · rw [if_pos hx, if_pos hx, (ih z).2]
      · rw [if_neg hx, if_neg hx, List.cons_append]

theorem seParse_append_dot (u v : Str) : seParse (u ++ '.' :: v) = seParse u := by
  rcases u with _ | ⟨c, u'⟩
  · rw [List.nil_append]
    rfl
  · rw [List.cons_append]
    unfold seParse
    dsimp only
    by_cases hc : (c = 'S' || c = 's') = true
    · rw [if_pos hc, if_pos hc]
      have hdot : ('.' : Char).isDigit = false := by decide
      have hjoin := takeWhile_append_mid Char.isDigit '.' hdot u' v
      rw [hjoin.1, hjoin.2]
      by_cases hds : u'.takeWhile Char.isDigit = []
      · rw [if_pos hds, if_pos hds]
      · rw [if_neg hds, if_neg hds]
        rcases hdw : u'.dropWhile Char.isDigit with _ | ⟨e, r2⟩
        · rw [List.nil_append]
          dsimp only
          rw [if_neg (by decide)]
        · rw [List.cons_append]
          dsimp only
          by_cases he : (e = 'E' || e = 'e') = true
          · rw [if_pos he, if_pos he]
            have hjoin2 := takeWhile_append_mid Char.isDigit '.' hdot r2 v
            rw [hjoin2.1]
          · rw [if_neg he, if_neg he]
    · rw [if_neg hc, if_neg hc]

theorem year4_cons4 (a b c d : Char) (X Y : Str) :
    year4 (a :: b :: c :: d :: X) = year4 (a :: b :: c :: d :: Y) := rfl

theorem year4_append_dot (w v : Str) : year4 (w ++ '.' :: v) = year4 w := by
  have hdot : ('.' : Char).isDigit = false := by decide
  rcases w with _ | ⟨a, w⟩
  · rcases v with _ | ⟨v0, v⟩
    · rfl
    · rcases v with _ | ⟨v1, v⟩
      · rfl
      · rcases v with _ | ⟨v2, v⟩
        · rfl
        · show year4 ('.' :: v0 :: v1 :: v2 :: v) = none
          unfold year4
          simp [hdot]
  · rcases w with _ | ⟨b, w⟩
    · rcases v with _ | ⟨v0, v⟩
      · rfl
      · rcases v with _ | ⟨v1, v⟩
        · rfl
        · show year4 (a :: '.' :: v0 :: v1 :: v) = none
          unfold year4
          simp [hdot]
    · rcases w with _ | ⟨c, w⟩
      · rcases v with _ | ⟨v0, v⟩
        · rfl
        · show year4 (a :: b :: '.' :: v0 :: v) = none
          unfold year4
          simp [hdot]
      · rcases w with _ | ⟨d, w⟩
        · show year4 (a :: b :: c :: '.' :: v) = none
          unfold year4
          simp [hdot]
        · exact year4_cons4 a b c d (w ++ '.' :: v) w

theorem yearParen_ne_close (a b c d e : Char) (X : Str) (he : e ≠ ')') :
    yearParen (a :: b :: c :: d :: e :: X) = none := by
  unfold yearParen
  split
  · rename_i heq
    exfalso
    rcases heq with ⟨-, -, -, -, e5, -⟩
    exact he rfl
  · rfl

theorem yearParen_cons5 (a b c d e : Char) (X Y : Str) :
    yearParen (a :: b :: c :: d :: e :: X) = yearParen (a :: b :: c :: d :: e :: Y) := by
  by_cases he : e = ')'
  · subst he
    rfl
  · rw [yearParen_ne_close a b c d e X he, yearParen_ne_close a b c d e Y he]

theorem yearParen_append_imp (w v y : Str) (h : yearParen (w ++ '.' :: v) = some y) :
    yearParen w = some y := by
  have hdot : ('.' : Char).isDigit = false := by decide
  rcases w with _ | ⟨a, w⟩
  · exfalso
    rw [List.nil_append] at h
    unfold yearParen at h
    split at h
    · rename_i heq
      rcases heq with ⟨e1, -⟩
      simp [hdot] at h
    · exact Option.noConfusion h
  · rcases w with _ | ⟨b, w⟩
    · exfalso
      simp only [List.cons_append, List.nil_append] at h
      unfold yearParen at h
      split at h
      · rename_i heq
        rcases heq with ⟨-, e2, -⟩
        simp [hdot] at h
      · exact Option.noConfusion h
    · rcases w with _ | ⟨c, w⟩
      · exfalso
        simp only [List.cons_append, List.nil_append] at h
        unfold yearParen at h
        split at h
        · rename_i heq
          rcases heq with ⟨-, -, e3, -⟩
          simp [hdot] at h
        · exact Option.noConfusion h
      · rcases w with _ | ⟨d, w⟩
        · exfalso
          simp only [List.cons_append, List.nil_append] at h
          unfold yearParen at h
          split at h
          · rename_i heq
            rcases heq with ⟨-, -, -, e4, -⟩
            simp [hdot] at h
          · exact Option.noConfusion h
        · rcases w with _ | ⟨e, w⟩
          · exfalso
            simp only [List.cons_append, List.nil_append] at h
            rw [yearParen_ne_close a b c d '.' v (by decide)] at h
            exact Option.noConfusion h
          · simp only [List.cons_append] at h
            rw [yearParen_cons5 a b c d e (w ++ '.' :: v) w] at h
            exact h

theorem seParse_none_of_hasSEci (u : Str) (h : hasSEci u = false) : seParse u = none := by
  cases u with
  | nil => rfl
  | cons c r =>
    have hp : (seParse (c :: r)).isSome = false ∧ hasSEci r = false := by
      simpa [hasSEci] using h
    rcases hq : seParse (c :: r) with _ | p
    · rfl
    · rw [hq] at hp
      simp at hp

theorem seParse_none_of_extChars (r : Str) (h : r.all extChar = true) :
    seParse r = none := by
  cases r with
  | nil => rfl
  | cons c r' =>
    have hc : extChar c = true := by
      rw [List.all_cons] at h
      exact (Bool.and_eq_true_iff.mp h).1
    have hS : c ≠ 'S' := by
      intro hh
      subst hh
      simp [extChar] at hc
    have hs : c ≠ 's' := by
      intro hh
      subst hh
      simp [extChar] at hc
    unfold seParse
    dsimp only
    rw [if_neg (by simp [hS, hs])]

theorem hasSepSE_no_sep (w : Str) (h : ∀ c ∈ w, isSep c = false) : hasSepSE w = false := by
  induction w with
  | nil => rfl
  | cons c r ih =>
    unfold hasSepSE
    rw [h c (by simp)]
    simp [ih (fun x hx => h x (by simp [hx]))]

theorem hasSepSE_extOk (ext : Str) (h : extOk ext = true) : hasSepSE ext = false := by
  cases ext with
  | nil => rfl
  | cons c r =>
    have h' : c = '.' ∧ r.all extChar = true := by simpa [extOk] using h
    obtain ⟨rfl, hall⟩ := h'
    unfold hasSepSE
    rw [seParse_none_of_extChars r hall]
    have hns : hasSepSE r = false := by
      apply hasSepSE_no_sep
      intro x hx
      have := List.all_eq_true.mp hall x hx
      exact alpha_not_sep x (by
        simp [extChar] at this
        tauto)
    simp [hns]

theorem hasSepSE_digits_append (y tail : Str) (hy : ∀ c ∈ y, c.isDigit = true)
    (ht : hasSepSE tail = false) : hasSepSE (y ++ tail) = false := by
  induction y with
  | nil => simpa using ht
  | cons d y' ih =>
    rw [List.cons_append]
    unfold hasSepSE
    rw [digit_not_sep d (hy d (by simp))]
    simp [ih (fun c hc => hy c (by simp [hc]))]

theorem hasSepSE_append_dot (u v : Str) (hu : hasSEci u = false)
    (hv0 : seParse v = none) (hv : hasSepSE v = false) :
    hasSepSE (u ++ '.' :: v) = false := by
  induction u with
  | nil =>
    rw [List.nil_append]
    unfold hasSepSE
    rw [hv0]
    simp [hv]
  | cons c u' ih =>
    have hp : (seParse (c :: u')).isSome = false ∧ hasSEci u' = false := by
      simpa [hasSEci] using hu
    rw [List.cons_append]
    unfold hasSepSE
    rw [seParse_append_dot u' v, seParse_none_of_hasSEci u' hp.2]
    simp [ih hp.2]

theorem tvScan1_none_of (s : Str) (h : hasSepSE s = false) :
    ∀ acc, tvScan1 acc s = none := by
  induction s with
  | nil => intro acc; rfl
  | cons c rest ih =>
    have hp : (isSep c && (seParse rest).isSome) = false ∧ hasSepSE rest = false := by
      simpa [hasSepSE] using h
    intro acc
    unfold tvScan1
    split
    · rename_i hb
      have hsep : isSep c = true := (Bool.and_eq_true_iff.mp hb).2
      have hnone : seParse rest = none := by
        rcases hq : seParse rest with _ | p
        · rfl
        · exfalso
          rw [hsep, hq] at hp
          simp at hp
      rw [hnone]
      dsimp only
      split
      · rfl
      · exact ih hp.2 _
    · split
      · rfl
      · exact ih hp.2 _

theorem digit_benign (c : Char) (h : c.isDigit = true) :
    isWs c = false ∧ c ≠ '.' ∧ c ≠ '-' ∧ c ≠ '(' ∧ c ≠ '\n' := by
  have hs : c ≠ '.' ∧ isWs c = false := by
    simpa [isSep] using digit_not_sep c h
  refine ⟨hs.2, hs.1, ?_, ?_, ?_⟩
  · intro hh; subst hh; exact absurd h (by decide)
  · intro hh; subst hh; exact absurd h (by decide)
  · intro hh; subst hh; exact absurd hs.2 (by decide)

theorem extChar_benign (c : Char) (h : extChar c = true) :
    isWs c = false ∧ c ≠ '.' ∧ c ≠ '-' ∧ c ≠ '(' ∧ c ≠ '\n' := by
  have ha : c.isAlpha = true := by
    simp [extChar] at h
    tauto
  have hs : c ≠ '.' ∧ isWs c = false := by
    simpa [isSep] using alpha_not_sep c ha
  refine ⟨hs.2, hs.1, ?_, ?_, ?_⟩
  · intro hh; subst hh; exact absurd ha (by decide)
  · intro hh; subst hh; exact absurd ha (by decide)
  · intro hh; subst hh; exact absurd hs.2 (by decide)

theorem head_append_dot_not_ws (u' v : Str) (hu : ∀ c ∈ u', isWs c = false) :
    ∀ a, (u' ++ '.' :: v).head? = some a → isWs a = false := by
  intro a ha
  cases u' with
  | nil =>
    rw [List.nil_append] at ha
    simp at ha
    subst ha
    decide
  | cons x u'' =>
    rw [List.cons_append] at ha
    simp at ha
    subst ha
    exact hu x (by simp)

theorem tvTail2_none_head (c : Char) (r : Str) (hw : isWs c = false) (hc : c ≠ '-') :
    tvTail2 (c :: r) = none := by
  unfold tvTail2
  rw [dropWhile_eq_self_of_head isWs (c :: r) (by
    intro a ha
    simp at ha
    subst ha
    exact hw)]
  split
  · rename_i heq
    exfalso
    rcases heq with ⟨-, -⟩
    exact hc rfl
  · rfl

theorem hasTail2_no_dash (w : Str) (h : ∀ c ∈ w, isWs c = false ∧ c ≠ '-') :
    hasTail2 w = false := by
  induction w with
  | nil => rfl
  | cons c r ih =>
    unfold hasTail2
    rw [tvTail2_none_head c r (h c (by simp)).1 (h c (by simp)).2]
    simp [ih (fun x hx => h x (by simp [hx]))]

theorem hasTail2_append_dot (u v : Str) (hu : ∀ c ∈ u, isWs c = false)
    (hse : hasSEci u = false) (hv : hasTail2 ('.' :: v) = false) :
    hasTail2 (u ++ '.' :: v) = false := by
  induction u with
  | nil => simpa using hv
  | cons c u' ih =>
    have hp : (seParse (c :: u')).isSome = false ∧ hasSEci u' = false := by
      simpa [hasSEci] using hse
    have hu' : ∀ x ∈ u', isWs x = false := fun x hx => hu x (by simp [hx])
    rw [List.cons_append]
    unfold hasTail2
    have ht : tvTail2 (c :: (u' ++ '.' :: v)) = none := by
      unfold tvTail2
      rw [dropWhile_eq_self_of_head isWs _ (by
        intro a ha
        simp at ha
        subst ha
        exact hu c (by simp))]
      split
      · rename_i heq
        obtain ⟨h1, h2⟩ := List.cons.inj heq
        rw [← h2]
        rw [dropWhile_eq_self_of_head isWs _ (head_append_dot_not_ws u' v hu')]
        rw [seParse_append_dot u' v]
        exact seParse_none_of_hasSEci u' hp.2
      · rfl
    rw [ht]
    simp [ih hu' hp.2]

theorem tvScan2_none_of (s : Str) (h : hasTail2 s = false) :
    ∀ acc, tvScan2 acc s = none := by
  induction s with
  | nil => intro acc; rfl
  | cons c rest ih =>
    have hp : (tvTail2 (c :: rest)).isSome = false ∧ hasTail2 rest = false := by
      simpa [hasTail2] using h
    have hnone : tvTail2 (c :: rest) = none := by
      rcases hq : tvTail2 (c :: rest) with _ | p
      · rfl
      · rw [hq] at hp
        simp at hp
    intro acc
    unfold tvScan2
    split
    · rw [hnone]
      dsimp only
      split
      · rfl
      · exact ih hp.2 _
    · split
      · rfl
      · exact ih hp.2 _

theorem movie1Tail_none_head (c : Char) (r : Str) (hw : isWs c = false) (hc : c ≠ '(') :
    movie1Tail (c :: r) = none := by
  unfold movie1Tail
  rw [dropWhile_eq_self_of_head isWs (c :: r) (by
    intro a ha
    simp at ha
    subst ha
    exact hw)]
  split
  · rename_i heq
    exfalso
    rcases heq with ⟨-, -⟩
    exact hc rfl
  · rfl

theorem hasMovie1Tail_no_paren (w : Str) (h : ∀ c ∈ w, isWs c = false ∧ c ≠ '(') :
    hasMovie1Tail w = false := by
  induction w with
  | nil => rfl
  | cons c r ih =>
    unfold hasMovie1Tail
    rw [movie1Tail_none_head c r (h c (by simp)).1 (h c (by simp)).2]
    simp [ih (fun x hx => h x (by simp [hx]))]

theorem hasMovie1Tail_append_dot (u v : Str) (hu : ∀ c ∈ u, isWs c = false)
    (hpy : hasParenYear u = false) (hv : hasMovie1Tail ('.' :: v) = false) :
    hasMovie1Tail (u ++ '.' :: v) = false := by
  induction u with
  | nil => simpa using hv
  | cons c u' ih =>
    have hp : (decide (c = '(') && (yearParen u').isSome) = false ∧ hasParenYear u' = false := by
      simpa [hasParenYear] using hpy
    have hu' : ∀ x ∈ u', isWs x = false := fun x hx => hu x (by simp [hx])
    rw [List.cons_append]
    unfold hasMovie1Tail
    have ht : movie1Tail (c :: (u' ++ '.' :: v)) = none := by
      unfold movie1Tail
      rw [dropWhile_eq_self_of_head isWs _ (by
        intro a ha
        simp at ha
        subst ha
        exact hu c (by simp))]
      split
      · rename_i heq
        obtain ⟨h1, h2⟩ := List.cons.inj heq
        rw [← h2]
        rcases hq : yearParen (u' ++ '.' :: v) with _ | yy
        · rfl
        · exfalso
          have h3 := yearParen_append_imp u' v yy hq
          have h4 : (yearParen u').isSome = false := by
            rw [h1] at hp
            simpa using hp.1
          rw [h3] at h4
          simp at h4
      · rfl
    rw [ht]
    simp [ih hu' hp.2]

theorem movie1Scan_none_of (s : Str) (h : hasMovie1Tail s = false) :
    ∀ acc, movie1Scan acc s = none := by
  induction s with
  | nil => intro acc; rfl
  | cons c rest ih =>
    have hp : (movie1Tail (c :: rest)).isSome = false ∧ hasMovie1Tail rest = false := by
      simpa [hasMovie1Tail] using h
    have hnone : movie1Tail (c :: rest) = none := by
      rcases hq : movie1Tail (c :: rest) with _ | p
      · rfl
      · rw [hq] at hp
        simp at hp
    intro acc
    unfold movie1Scan
    split
    · rw [hnone]
      dsimp only
      split
      · rfl
      · exact ih hp.2 _
    · split
      · rfl
      · exact ih hp.2 _

theorem tvScan1_append_eq (v dsv esv : Str) (hv : seParse v = some (dsv, esv)) :
    ∀ (u acc : Str), hasSEci u = false → (∀ c ∈ u, isWs c = false) →
    (acc ≠ [] ∨ u ≠ []) →
    tvScan1 acc (u ++ '.' :: v) = some (acc.reverse ++ u, dsv, esv) := by
  intro u
  induction u with
  | nil =>
    intro acc _ _ hne
    have hacc : acc ≠ [] := by
      rcases hne with h | h
      · exact h
      · exact absurd rfl h
    rw [List.nil_append]
    unfold tvScan1
    split
    · rw [hv]
      dsimp only
      simp
    · rename_i hb
      exfalso
      exact hb (by simp [hacc, isSep])
  | cons c u' ih =>
    intro acc hse hws hne
    have hp : (seParse (c :: u')).isSome = false ∧ hasSEci u' = false := by
      simpa [hasSEci] using hse
    have hws' : ∀ x ∈ u', isWs x = false := fun x hx => hws x (by simp [hx])
    have hcn : c ≠ '\n' := by
      intro hh
      have h2 := hws c (by simp)
      rw [hh] at h2
      exact absurd h2 (by decide)
    rw [List.cons_append]
    unfold tvScan1
    split
    · rw [seParse_append_dot u' v, seParse_none_of_hasSEci u' hp.2]
      dsimp only
      rw [ih (c :: acc) hp.2 hws' (Or.inl (by simp))]
      simp
    · rw [ih (c :: acc) hp.2 hws' (Or.inl (by simp))]
      simp

theorem movie2Scan_append_eq (v y4v : Str) (hv : year4 v = some y4v) :
    ∀ (u acc : Str), hasDotYear4 u = false → (∀ c ∈ u, isWs c = false) →
    (acc ≠ [] ∨ u ≠ []) →
    movie2Scan acc (u ++ '.' :: v) = some (acc.reverse ++ u, y4v) := by
  intro u
  induction u with
  | nil =>
    intro acc _ _ hne
    have hacc : acc ≠ [] := by
      rcases hne with h | h
      · exact h
      · exact absurd rfl h
    rw [List.nil_append]
    unfold movie2Scan
    split
    · rw [hv]
      dsimp only
      simp
    · rename_i hb
      exfalso
      exact hb (by simp [hacc])
  | cons c u' ih =>
    intro acc hdy hws hne
    have hp : (decide (c = '.') && (year4 u').isSome) = false ∧ hasDotYear4 u' = false := by
      simpa [hasDotYear4] using hdy
    have hws' : ∀ x ∈ u', isWs x = false := fun x hx => hws x (by simp [hx])
    have hcn : c ≠ '\n' := by
      intro hh
      have h2 := hws c (by simp)
      rw [hh] at h2
      exact absurd h2 (by decide)
    rw [List.cons_append]
    unfold movie2Scan
    split
    · rename_i hb
      have hcdot : c = '.' := by
        have := (Bool.and_eq_true_iff.mp hb).2
        exact of_decide_eq_true this
      have h4 : year4 (u' ++ '.' :: v) = none := by
        rw [year4_append_dot]
        rcases hq : year4 u' with _ | yy
        · rfl
        · exfalso
          rw [hcdot] at hp
          have h5 : (year4 u').isSome = false := by
            simpa using hp.1
          rw [hq] at h5
          simp at h5
      rw [h4]
      dsimp only
      rw [ih (c :: acc) hp.2 hws' (Or.inl (by simp))]
      simp
    · rw [ih (c :: acc) hp.2 hws' (Or.inl (by simp))]
      simp

theorem seParse_none_of_head_digit (d : Char) (r : Str) (h : d.isDigit = true) :
    seParse (d :: r) = none := by
  have hS : d ≠ 'S' := by
    intro hh; subst hh; exact absurd h (by decide)
  have hs : d ≠ 's' := by
    intro hh; subst hh; exact absurd h (by decide)
  unfold seParse
  dsimp only
  rw [if_neg (by simp [hS, hs])]

theorem extOk_takeWhile (ext : Str) (h : extOk ext = true) :
    ext.takeWhile Char.isDigit = [] := by
  cases ext with
  | nil => rfl
  | cons c r =>
    have h' : c = '.' ∧ r.all extChar = true := by simpa [extOk] using h
    obtain ⟨rfl, -⟩ := h'
    rw [List.takeWhile_cons, if_neg (by decide)]

theorem ext_chars_benign (ext : Str) (h : extOk ext = true) :
    ∀ c ∈ ext, isWs c = false ∧ c ≠ '-' ∧ c ≠ '(' ∧ c ∉ invalidChars := by
  intro c hc
  cases ext with
  | nil => simp at hc
  | cons x r =>
    have h' : x = '.' ∧ r.all extChar = true := by simpa [extOk] using h
    obtain ⟨rfl, hall⟩ := h'
    rcases List.mem_cons.mp hc with rfl | hr
    · exact ⟨by decide, by decide, by decide, by decide⟩
    · have hx := List.all_eq_true.mp hall c hr
      have hb := extChar_benign c hx
      refine ⟨hb.1, hb.2.2.1, hb.2.2.2.1, ?_⟩
      intro hm
      have ha : c.isAlpha = true := by
        simp [extChar] at hx
        tauto
      rcases invalid_cases c hm with h1|h1|h1|h1|h1|h1|h1|h1|h1 <;>
        (subst h1; exact absurd ha (by decide))

theorem year4_of_four (y tail : Str) (hlen : y.length = 4)
    (hyd : ∀ c ∈ y, c.isDigit = true) : year4 (y ++ tail) = some y := by
  rcases y with _ | ⟨a, y⟩
  · simp at hlen
  · rcases y with _ | ⟨b, y⟩
    · simp at hlen
    · rcases y with _ | ⟨c, y⟩
      · simp at hlen
      · rcases y with _ | ⟨d, y⟩
        · simp at hlen
        · rcases y with _ | ⟨e, y⟩
          · simp only [List.cons_append, List.nil_append]
            unfold year4
            dsimp only
            rw [if_pos]
            simp [hyd a (by simp), hyd b (by simp), hyd c (by simp), hyd d (by simp)]
          · simp at hlen

theorem intercalate_two (a b : Str) : List.intercalate ['.'] [a, b] = a ++ '.' :: b := by
  simp [List.intercalate, List.intersperse]

theorem map_replaceInvalid_id (l : Str) (h : ∀ c ∈ l, c ∉ invalidChars) :
    l.map replaceInvalid = l := by
  induction l with
  | nil => rfl
  | cons x xs ih =>
    rw [List.map_cons, ih (fun c hc => h c (by simp [hc]))]
    unfold replaceInvalid
    rw [if_neg (h x (by simp))]

theorem clean_filename_eq_self (s : Str) (hinv : ∀ c ∈ s, c ∉ invalidChars)
    (hh : ∀ c, s.head? = some c → isDotSpace c = false)
    (hl : ∀ c, s.getLast? = some c → isDotSpace c = false) :
    clean_filename s = s := by
  unfold clean_filename stripDotSpace
  rw [map_replaceInvalid_id s hinv]
  rw [dropWhile_eq_self_of_head isDotSpace s hh]
  exact rstrip_eq_self_of_getLast isDotSpace s hl

theorem stripWs_eq_self (s : Str) (h : ∀ c ∈ s, isWs c = false) : stripWs s = s := by
  unfold stripWs
  rw [dropWhile_eq_self_of_head isWs s (by
    intro a ha
    cases s with
    | nil => simp at ha
    | cons x r =>
      simp at ha
      subst ha
      exact h x (by simp))]
  apply rstrip_eq_self_of_getLast
  intro a ha
  exact h a (mem_of_getLast?Some s a ha)

theorem tvTitleClean_eq_self (s : Str) (h : ∀ c ∈ s, isWs c = false)
    (hd : s.getLast? ≠ some '-') : tvTitleClean s = s := by
  unfold tvTitleClean
  rw [stripWs_eq_self s h]
  rw [if_neg hd]

theorem tv_show_dir_name_chars (t : Str) :
    ∀ c ∈ tv_show_dir_name t, isWs c = false ∧ c ∉ invalidChars := by
  intro c hc
  unfold tv_show_dir_name subWsDot collapseToChar at hc
  rcases collapseAux_chars isWs '.' false _ c hc with h | ⟨h1, h2⟩
  · subst h
    exact ⟨by decide, by decide⟩
  · exact ⟨h2, (sanitize_chars t c h1).1⟩

theorem generate_movie_eq (tRaw y ext stem q cc : Str)
    (htr : tRaw ≠ []) (hy : y ≠ [])
    (hclean : clean_filename (tv_show_dir_name tRaw ++ '.' :: y) =
      tv_show_dir_name tRaw ++ '.' :: y) :
    generate_new_filename stem ext ⟨tRaw, y, [], [], q, cc⟩ =
      tv_show_dir_name tRaw ++ '.' :: (y ++ ext) := by
  unfold generate_new_filename generate_new_filename_base
  dsimp only
  rw [if_neg htr, if_pos hy, if_neg (show ¬((decide (([] : Str) ≠ []) &&
    decide (([] : Str) ≠ [])) = true) from by decide)]
  simp only [List.append_nil, List.nil_append, List.singleton_append, List.cons_append]
  rw [intercalate_two, hclean]
  simp

theorem generate_tv_eq (tRaw ds es ext stem q cc : Str)
    (htr : tRaw ≠ []) (hds : ds ≠ []) (hes : es ≠ [])
    (hclean : clean_filename (tv_show_dir_name tRaw ++ '.' :: ('S' :: (ds ++ 'E' :: es))) =
      tv_show_dir_name tRaw ++ '.' :: ('S' :: (ds ++ 'E' :: es))) :
    generate_new_filename stem ext ⟨tRaw, [], ds, es, q, cc⟩ =
      tv_show_dir_name tRaw ++ '.' :: ('S' :: (ds ++ 'E' :: (es ++ ext))) := by
  unfold generate_new_filename generate_new_filename_base
  dsimp only
  rw [if_neg htr, if_neg (show ¬(([] : Str) ≠ []) from by simp),
    if_pos (show (decide (ds ≠ []) && decide (es ≠ [])) = true from by simp [hds, hes])]
  simp only [List.cons_append, List.nil_append, List.append_assoc, List.append_nil,
    List.singleton_append]
  rw [intercalate_two, hclean]
  simp

theorem digit_not_dotSpace (c : Char) (h : c.isDigit = true) : isDotSpace c = false := by
  have hb := digit_benign c h
  have hsp : c ≠ ' ' := by
    intro hh
    subst hh
    exact absurd hb.1 (by decide)
  simp [isDotSpace, hsp, hb.2.1]

theorem clean_of_title_tail (t' tail : Str) (hg : goodName t') (htne : t' ≠ [])
    (htl : tail ≠ []) (htail_inv : ∀ c ∈ tail, c ∉ invalidChars)
    (hlast : ∀ c, tail.getLast? = some c → isDotSpace c = false) :
    clean_filename (t' ++ '.' :: tail) = t' ++ '.' :: tail := by
  apply clean_filename_eq_self
  · intro c hc
    rcases List.mem_append.mp hc with h | h
    · exact hg.1 c h
    · rcases List.mem_cons.mp h with rfl | h2
      · decide
      · exact htail_inv c h2
  · intro c hc
    rw [List.head?_append_of_ne_nil _ htne] at hc
    have h2 := hg.2.1 c hc
    simp [isDotSpace, h2.1, h2.2]
  · intro c hc
    rw [List.getLast?_append_of_ne_nil _ (show '.' :: tail ≠ [] by simp)] at hc
    rw [show ('.' :: tail).getLast? = tail.getLast? from ?_] at hc
    · exact hlast c hc
    · cases tail with
      | nil => exact absurd rfl htl
      | cons x r => exact List.getLast?_cons_cons

theorem roundtrip_movie (tRaw y ext stem qa ca : Str)
    (hylen : y.length = 4) (hyd : ∀ c ∈ y, c.isDigit = true)
    (hext : extOk ext = true)
    (ht1 : tv_show_dir_name tRaw ≠ [])
    (ht2 : hasSEci (tv_show_dir_name tRaw) = false)
    (ht3 : hasDotYear4 (tv_show_dir_name tRaw) = false)
    (ht4 : hasParenYear (tv_show_dir_name tRaw) = false) :
    ∃ q c, extract_pattern_info (generate_new_filename stem ext ⟨tRaw, y, [], [], qa, ca⟩) =
      ⟨tv_show_dir_name tRaw, y, [], [], q, c⟩ := by
  have hnw : ∀ c ∈ tv_show_dir_name tRaw, isWs c = false :=
    fun c hc => (tv_show_dir_name_chars tRaw c hc).1
  have hg := tv_show_dir_name_goodName tRaw
  have htr : tRaw ≠ [] := by
    intro h
    apply ht1
    rw [h]
    rfl
  have hy : y ≠ [] := by
    intro h
    rw [h] at hylen
    simp at hylen
  have hcleanM := clean_of_title_tail (tv_show_dir_name tRaw) y hg ht1 hy
    (fun c hc => digit_not_invalid c (hyd c hc))
    (fun c hc => digit_not_dotSpace c (hyd c (mem_of_getLast?Some y c hc)))
  rw [generate_movie_eq tRaw y ext stem qa ca htr hy hcleanM]
  have hsep0 : seParse (y ++ ext) = none := by
    cases y with
    | nil => exact absurd rfl hy
    | cons d y' =>
      rw [List.cons_append]
      exact seParse_none_of_head_digit d _ (hyd d (by simp))
  have hs1 : tvScan1 [] (tv_show_dir_name tRaw ++ '.' :: (y ++ ext)) = none :=
    tvScan1_none_of _ (hasSepSE_append_dot _ _ ht2 hsep0
      (hasSepSE_digits_append y ext hyd (hasSepSE_extOk ext hext))) []
  have hchars2 : ∀ c ∈ ('.' :: (y ++ ext)), isWs c = false ∧ c ≠ '-' := by
    intro c hc
    rcases List.mem_cons.mp hc with rfl | hc2
    · exact ⟨by decide, by decide⟩
    · rcases List.mem_append.mp hc2 with h | h
      · have hb := digit_benign c (hyd c h)
        exact ⟨hb.1, hb.2.2.1⟩
      · have hb := ext_chars_benign ext hext c h
        exact ⟨hb.1, hb.2.1⟩
  have hs2 : tvScan2 [] (tv_show_dir_name tRaw ++ '.' :: (y ++ ext)) = none :=
    tvScan2_none_of _ (hasTail2_append_dot _ _ hnw ht2 (hasTail2_no_dash _ hchars2)) []
  have hchars3 : ∀ c ∈ ('.' :: (y ++ ext)), isWs c = false ∧ c ≠ '(' := by
    intro c hc
    rcases List.mem_cons.mp hc with rfl | hc2
    · exact ⟨by decide, by decide⟩
    · rcases List.mem_append.mp hc2 with h | h
      · have hb := digit_benign c (hyd c h)
        exact ⟨hb.1, hb.2.2.2.1⟩
      · have hb := ext_chars_benign ext hext c h
        exact ⟨hb.1, hb.2.2.1⟩
  have hs3 : movie1Scan [] (tv_show_dir_name tRaw ++ '.' :: (y ++ ext)) = none :=
    movie1Scan_none_of _ (hasMovie1Tail_append_dot _ _ hnw ht4
      (hasMovie1Tail_no_paren _ hchars3)) []
  have hs4 : movie2Scan [] (tv_show_dir_name tRaw ++ '.' :: (y ++ ext)) =
      some (tv_show_dir_name tRaw, y) := by
    have h := movie2Scan_append_eq (y ++ ext) y (year4_of_four y ext hylen hyd)
      (tv_show_dir_name tRaw) [] ht3 hnw (Or.inr ht1)
    simpa using h
  refine ⟨detectQuality (tv_show_dir_name tRaw ++ '.' :: (y ++ ext)),
    detectCodec (tv_show_dir_name tRaw ++ '.' :: (y ++ ext)), ?_⟩
  rw [extract_eq_of_movie2 _ _ _ hs1 hs2 hs3 hs4]
  rw [stripWs_eq_self _ hnw]

theorem roundtrip_tv (tRaw ds es ext stem qa ca : Str)
    (hds : ds ≠ []) (hdsd : ∀ c ∈ ds, c.isDigit = true)
    (hes : es ≠ []) (hesd : ∀ c ∈ es, c.isDigit = true)
    (hext : extOk ext = true)
    (ht1 : tv_show_dir_name tRaw ≠ [])
    (ht2 : hasSEci (tv_show_dir_name tRaw) = false)
    (ht5 : (tv_show_dir_name tRaw).getLast? ≠ some '-') :
    ∃ q c, extract_pattern_info (generate_new_filename stem ext ⟨tRaw, [], ds, es, qa, ca⟩) =
      ⟨tv_show_dir_name tRaw, [], ds, es, q, c⟩ := by
  have hnw : ∀ c ∈ tv_show_dir_name tRaw, isWs c = false :=
    fun c hc => (tv_show_dir_name_chars tRaw c hc).1
  have hg := tv_show_dir_name_goodName tRaw
  have htr : tRaw ≠ [] := by
    intro h
    apply ht1
    rw [h]
    rfl
  have hinvT : ∀ c ∈ ('S' :: (ds ++ 'E' :: es)), c ∉ invalidChars := by
    intro c hc
    rcases List.mem_cons.mp hc with rfl | h2
    · decide
    · rcases List.mem_append.mp h2 with h | h
      · exact digit_not_invalid c (hdsd c h)
      · rcases List.mem_cons.mp h with rfl | h3
        · decide
        · exact digit_not_invalid c (hesd c h3)
  have hlastT : ∀ c, ('S' :: (ds ++ 'E' :: es)).getLast? = some c → isDotSpace c = false := by
    intro c hc
    rw [show ('S' :: (ds ++ 'E' :: es)) = ('S' :: ds) ++ 'E' :: es from by simp] at hc
    rw [List.getLast?_append_of_ne_nil _ (show 'E' :: es ≠ [] by simp)] at hc
    rw [show ('E' :: es) = ['E'] ++ es from rfl] at hc
    rw [List.getLast?_append_of_ne_nil _ hes] at hc
    exact digit_not_dotSpace c (hesd c (mem_of_getLast?Some es c hc))
  have hcleanT := clean_of_title_tail (tv_show_dir_name tRaw) ('S' :: (ds ++ 'E' :: es))
    hg ht1 (by simp) hinvT hlastT
  rw [generate_tv_eq tRaw ds es ext stem qa ca htr hds hes hcleanT]
  have hparse : seParse ('S' :: (ds ++ 'E' :: (es ++ ext))) = some (ds, es) := by
    have h := seParse_exact 'S' 'E' ds es ext (Or.inl rfl) hds hdsd (Or.inl rfl) hes hesd
    rw [extOk_takeWhile ext hext] at h
    simpa using h
  have hscan : tvScan1 [] (tv_show_dir_name tRaw ++ '.' :: ('S' :: (ds ++ 'E' :: (es ++ ext)))) =
      some (tv_show_dir_name tRaw, ds, es) := by
    have h := tvScan1_append_eq ('S' :: (ds ++ 'E' :: (es ++ ext))) ds es hparse
      (tv_show_dir_name tRaw) [] ht2 hnw (Or.inr ht1)
    simpa using h
  refine ⟨detectQuality (tv_show_dir_name tRaw ++ '.' :: ('S' :: (ds ++ 'E' :: (es ++ ext)))),
    detectCodec (tv_show_dir_name tRaw ++ '.' :: ('S' :: (ds ++ 'E' :: (es ++ ext)))), ?_⟩
  rw [extract_eq_of_tvScan1 _ _ _ _ hscan]
  rw [tvTitleClean_eq_self _ hnw ht5]

/-- **C4** (counterexample): round-trip stability fails in general. For
`Blade Runner 2049 (2017).mkv` the extractor finds title `Blade Runner 2049`
and year `2017`; `generate_new_filename` synthesizes
`Blade.Runner.2049.2017.mkv`, and re-extracting from that name yields year
`2049` (the first dot-delimited 4-digit run, which comes from the title) and
title `Blade.Runner` — neither the year nor the title round-trips. -/
theorem c4_counterexample :
    (extract_pattern_info ("Blade Runner 2049 (2017).mkv".data)).title
        = "Blade Runner 2049".data ∧
    (extract_pattern_info ("Blade Runner 2049 (2017).mkv".data)).year = "2017".data ∧
    generate_new_filename (pathStem ("Blade Runner 2049 (2017).mkv".data))
        (get_file_extension ("Blade Runner 2049 (2017).mkv".data))
        (extract_pattern_info ("Blade Runner 2049 (2017).mkv".data))
      = "Blade.Runner.2049.2017.mkv".data ∧
    (extract_pattern_info ("Blade.Runner.2049.2017.mkv".data)).year ≠ "2017".data ∧
    (extract_pattern_info ("Blade.Runner.2049.2017.mkv".data)).title
        ≠ "Blade Runner 2049".data := by
  decide

/-- **C4** (amended): the round-trip reproduces the year / season / episode
exactly, and reproduces the title up to the dot-normalization that
`generate_new_filename` itself applies (`tv_show_dir_name`), provided the
normalized title cannot collide with the numeric patterns: it is non-empty,
contains no case-insensitive `S<digits>E<digits>` run, no dot followed by four
digits, no parenthesized four-digit group, does not end in `-`, the year is
exactly four digits, season and episode are non-empty digit runs, and the
extension is empty or a dot followed by lowercase letters other than `s`/`e`. -/
theorem c4_amended (tRaw y ds es ext stem qa ca qb cb : Str)
    (hylen : y.length = 4) (hyd : ∀ c ∈ y, c.isDigit = true)
    (hds : ds ≠ []) (hdsd : ∀ c ∈ ds, c.isDigit = true)
    (hes : es ≠ []) (hesd : ∀ c ∈ es, c.isDigit = true)
    (hext : extOk ext = true)
    (ht1 : tv_show_dir_name tRaw ≠ [])
    (ht2 : hasSEci (tv_show_dir_name tRaw) = false)
    (ht3 : hasDotYear4 (tv_show_dir_name tRaw) = false)
    (ht4 : hasParenYear (tv_show_dir_name tRaw) = false)
    (ht5 : (tv_show_dir_name tRaw).getLast? ≠ some '-') :
    ((extract_pattern_info (generate_new_filename stem ext ⟨tRaw, y, [], [], qa, ca⟩)).title =
        tv_show_dir_name tRaw ∧
      (extract_pattern_info (generate_new_filename stem ext ⟨tRaw, y, [], [], qa, ca⟩)).year = y ∧
      (extract_pattern_info (generate_new_filename stem ext ⟨tRaw, y, [], [], qa, ca⟩)).season
          = [] ∧
      (extract_pattern_info (generate_new_filename stem ext ⟨tRaw, y, [], [], qa, ca⟩)).episode
          = []) ∧
    ((extract_pattern_info (generate_new_filename stem ext ⟨tRaw, [], ds, es, qb, cb⟩)).title =
        tv_show_dir_name tRaw ∧
      (extract_pattern_info (generate_new_filename stem ext ⟨tRaw, [], ds, es, qb, cb⟩)).year
          = [] ∧
      (extract_pattern_info (generate_new_filename stem ext ⟨tRaw, [], ds, es, qb, cb⟩)).season
          = ds ∧
      (extract_pattern_info (generate_new_filename stem ext ⟨tRaw, [], ds, es, qb, cb⟩)).episode
          = es) := by
  obtain ⟨q1, c1, h1⟩ := roundtrip_movie tRaw y ext stem qa ca hylen hyd hext ht1 ht2 ht3 ht4
  obtain ⟨q2, c2, h2⟩ := roundtrip_tv tRaw ds es ext stem qb cb hds hdsd hes hesd hext ht1 ht2 ht5
  rw [h1, h2]
  exact ⟨⟨rfl, rfl, rfl, rfl⟩, ⟨rfl, rfl, rfl, rfl⟩⟩

/-- Witness for the amended C4 at `The Matrix` / year `1999` / `S01E02` /
extension `.mkv`. -/
theorem c4_amended_witness :
    ((extract_pattern_info (generate_new_filename ("x".data) (".mkv".data)
        ⟨"The Matrix".data, "1999".data, [], [], [], []⟩)).title =
      tv_show_dir_name ("The Matrix".data) ∧
     (extract_pattern_info (generate_new_filename ("x".data) (".mkv".data)
        ⟨"The Matrix".data, "1999".data, [], [], [], []⟩)).year = "1999".data) ∧
    ((extract_pattern_info (generate_new_filename ("x".data) (".mkv".data)
        ⟨"The Matrix".data, [], "01".data, "02".data, [], []⟩)).season = "01".data ∧
     (extract_pattern_info (generate_new_filename ("x".data) (".mkv".data)
        ⟨"The Matrix".data, [], "01".data, "02".data, [], []⟩)).episode = "02".data) := by
  have h := c4_amended ("The Matrix".data) ("1999".data) ("01".data) ("02".data)
    (".mkv".data) ("x".data) [] [] [] []
    (by decide) (by decide) (by decide) (by decide) (by decide) (by decide)
    (by decide) (by decide) (by decide) (by decide) (by decide) (by decide)
  exact ⟨⟨h.1.1, h.1.2.1⟩, ⟨h.2.2.2.1, h.2.2.2.2⟩⟩
